/-
Verification of the cacherator caching library (src/cacherator) against its
natural-language specification.  The Python source is shallowly embedded:
pure helpers become Lean functions, stateful methods become explicit
state-passing functions, machine integers are `Nat` with explicit `% 2^32`
where overflow matters, and wall-clock instants are rationals (microseconds
on an arbitrary epoch).
-/
import Mathlib

namespace Cacherator

/-! ### Byte-level helpers: UTF-8 encoding and the SHA-1/SHA-256 digests
used by `CachedFunction.function_hash` (hashlib.sha1) and
`JSONCache._json_cache_filename_with_path` (hashlib.sha256). -/

/-- 2^32, the modulus for 32-bit words. -/
def pow32 : Nat := 4294967296

/-- Rotate a 32-bit word left by `n` bits. -/
def rotl32 (x n : Nat) : Nat := ((x <<< n) % pow32) ||| (x >>> (32 - n))

/-- Rotate a 32-bit word right by `n` bits. -/
def rotr32 (x n : Nat) : Nat := (x >>> n) ||| ((x <<< (32 - n)) % pow32)

/-- UTF-8 encoding of a single character (code point) as a list of bytes. -/
def utf8Char (c : Char) : List Nat :=
  let n := c.toNat
  if n < 128 then [n]
  else if n < 2048 then [192 ||| (n >>> 6), 128 ||| (n &&& 63)]
  else if n < 65536 then
    [224 ||| (n >>> 12), 128 ||| ((n >>> 6) &&& 63), 128 ||| (n &&& 63)]
  else
    [240 ||| (n >>> 18), 128 ||| ((n >>> 12) &&& 63), 128 ||| ((n >>> 6) &&& 63),
     128 ||| (n &&& 63)]

/-- UTF-8 encoding of a string, as Python's `str.encode('utf-8')`. -/
def utf8Encode (s : String) : List Nat := (s.data.map utf8Char).flatten

/-- Big-endian 8-byte encoding of a length (for SHA padding). -/
def beBytes8 (n : Nat) : List Nat :=
  [(n >>> 56) % 256, (n >>> 48) % 256, (n >>> 40) % 256, (n >>> 32) % 256,
   (n >>> 24) % 256, (n >>> 16) % 256, (n >>> 8) % 256, n % 256]

/-- Big-endian 4-byte encoding of a 32-bit word. -/
def beBytes4 (n : Nat) : List Nat :=
  [(n >>> 24) % 256, (n >>> 16) % 256, (n >>> 8) % 256, n % 256]

/-- Merkle-Damgard padding shared by SHA-1 and SHA-256: append 0x80, zero
bytes up to 56 mod 64, then the bit length on 8 big-endian bytes. -/
def shaPad (msg : List Nat) : List Nat :=
  let len := msg.length
  msg ++ [128] ++ List.replicate ((119 - (len % 64)) % 64) 0 ++ beBytes8 (8 * len)

/-- Split a padded message into 64-byte blocks (fuel-based structural
recursion: each step consumes at least one byte, so `l.length` fuel is
always enough). -/
def toBlocksAux : Nat → List Nat → List (List Nat)
  | 0, _ => []
  | _, [] => []
  | fuel + 1, l => l.take 64 :: toBlocksAux fuel (l.drop 64)

/-- Split a padded message into 64-byte blocks. -/
def toBlocks (l : List Nat) : List (List Nat) := toBlocksAux l.length l

/-- Big-endian 32-bit words from a list of bytes. -/
def beWords : List Nat → List Nat
  | b0 :: b1 :: b2 :: b3 :: rest =>
      (((b0 <<< 24) ||| (b1 <<< 16) ||| (b2 <<< 8) ||| b3)) :: beWords rest
  | _ => []

/-- SHA-1 message-schedule extension of the 16 block words to 80 words. -/
def sha1Schedule (w16 : List Nat) : List Nat :=
  (List.range 64).foldl
    (fun acc j =>
      let i := j + 16
      acc ++ [rotl32 ((acc.getD (i - 3) 0) ^^^ (acc.getD (i - 8) 0) ^^^
                      (acc.getD (i - 14) 0) ^^^ (acc.getD (i - 16) 0)) 1])
    w16

/-- SHA-1 round function, by round quarter. -/
def sha1F (i b c d : Nat) : Nat :=
  if i < 20 then (b &&& c) ||| ((b ^^^ 4294967295) &&& d)
  else if i < 40 then b ^^^ c ^^^ d
  else if i < 60 then (b &&& c) ||| (b &&& d) ||| (c &&& d)
  else b ^^^ c ^^^ d

/-- SHA-1 round constants, by round quarter. -/
def sha1K (i : Nat) : Nat :=
  if i < 20 then 1518500249
  else if i < 40 then 1859775393
  else if i < 60 then 2400959708
  else 3395469782

/-- SHA-1 compression of one 64-byte block into the running state. -/
def sha1Block (h : Nat × Nat × Nat × Nat × Nat) (block : List Nat) :
    Nat × Nat × Nat × Nat × Nat :=
  let w := sha1Schedule (beWords block)
  let (h0, h1, h2, h3, h4) := h
  let fin := w.enum.foldl
    (fun st p =>
      let (a, b, c, d, e) := st
      let t := (rotl32 a 5 + sha1F p.1 b c d + e + sha1K p.1 + p.2) % pow32
      (t, a, rotl32 b 30, c, d))
    (h0, h1, h2, h3, h4)
  let (a, b, c, d, e) := fin
  ((h0 + a) % pow32, (h1 + b) % pow32, (h2 + c) % pow32, (h3 + d) % pow32,
   (h4 + e) % pow32)

/-- SHA-1 digest (20 bytes) of a byte string. -/
def sha1Bytes (msg : List Nat) : List Nat :=
  let h := (toBlocks (shaPad msg)).foldl sha1Block
    (1732584193, 4023233417, 2562383102, 271733878, 3285377520)
  beBytes4 h.1 ++ beBytes4 h.2.1 ++ beBytes4 h.2.2.1 ++ beBytes4 h.2.2.2.1 ++
    beBytes4 h.2.2.2.2

/-- One lowercase hexadecimal digit. -/
def hexDigit (n : Nat) : Char :=
  if n < 10 then Char.ofNat (48 + n) else Char.ofNat (87 + n)

/-- Lowercase hexadecimal rendering of a byte string. -/
def hexBytes (bytes : List Nat) : String :=
  ⟨(bytes.map (fun b => [hexDigit (b / 16 % 16), hexDigit (b % 16)])).flatten⟩

/-- `hashlib.sha1(s.encode('utf-8')).hexdigest()`. -/
def sha1Hexdigest (s : String) : String := hexBytes (sha1Bytes (utf8Encode s))

/-- SHA-256 round constants. -/
def sha256K : List Nat :=
  [1116352408, 1899447441, 3049323471, 3921009573, 961987163, 1508970993,
   2453635748, 2870763221, 3624381080, 310598401, 607225278, 1426881987,
   1925078388, 2162078206, 2614888103, 3248222580, 3835390401, 4022224774,
   264347078, 604807628, 770255983, 1249150122, 1555081692, 1996064986,
   2554220882, 2821834349, 2952996808, 3210313671, 3336571891, 3584528711,
   113926993, 338241895, 666307205, 773529912, 1294757372, 1396182291,
   1695183700, 1986661051, 2177026350, 2456956037, 2730485921, 2820302411,
   3259730800, 3345764771, 3516065817, 3600352804, 4094571909, 275423344,
   430227734, 506948616, 659060556, 883997877, 958139571, 1322822218,
   1537002063, 1747873779, 1955562222, 2024104815, 2227730452, 2361852424,
   2428436474, 2756734187, 3204031479, 3329325298]

/-- SHA-256 running state. -/
structure Sha256St where
  a : Nat
  b : Nat
  c : Nat
  d : Nat
  e : Nat
  f : Nat
  g : Nat
  h : Nat

/-- SHA-256 message-schedule extension of the 16 block words to 64 words. -/
def sha256Schedule (w16 : List Nat) : List Nat :=
  (List.range 48).foldl
    (fun acc j =>
      let i := j + 16
      let s0 := rotr32 (acc.getD (i - 15) 0) 7 ^^^ rotr32 (acc.getD (i - 15) 0) 18 ^^^
                ((acc.getD (i - 15) 0) >>> 3)
      let s1 := rotr32 (acc.getD (i - 2) 0) 17 ^^^ rotr32 (acc.getD (i - 2) 0) 19 ^^^
                ((acc.getD (i - 2) 0) >>> 10)
      acc ++ [(acc.getD (i - 16) 0 + s0 + acc.getD (i - 7) 0 + s1) % pow32])
    w16

/-- SHA-256 compression of one 64-byte block into the running state. -/
def sha256Block (st : Sha256St) (block : List Nat) : Sha256St :=
  let w := sha256Schedule (beWords block)
  let fin := (w.zip sha256K).foldl
    (fun q p =>
      let s1 := rotr32 q.e 6 ^^^ rotr32 q.e 11 ^^^ rotr32 q.e 25
      let ch := (q.e &&& q.f) ^^^ ((q.e ^^^ 4294967295) &&& q.g)
      let temp1 := (q.h + s1 + ch + p.2 + p.1) % pow32
      let s0 := rotr32 q.a 2 ^^^ rotr32 q.a 13 ^^^ rotr32 q.a 22
      let maj := (q.a &&& q.b) ^^^ (q.a &&& q.c) ^^^ (q.b &&& q.c)
      let temp2 := (s0 + maj) % pow32
      ⟨(temp1 + temp2) % pow32, q.a, q.b, q.c, (q.d + temp1) % pow32, q.e, q.f, q.g⟩)
    st
  ⟨(st.a + fin.a) % pow32, (st.b + fin.b) % pow32, (st.c + fin.c) % pow32,
   (st.d + fin.d) % pow32, (st.e + fin.e) % pow32, (st.f + fin.f) % pow32,
   (st.g + fin.g) % pow32, (st.h + fin.h) % pow32⟩

/-- SHA-256 digest (32 bytes) of a byte string. -/
def sha256Bytes (msg : List Nat) : List Nat :=
  let st := (toBlocks (shaPad msg)).foldl sha256Block
    ⟨1779033703, 3144134277, 1013904242, 2773480762, 1359893119, 2600822924,
     528734635, 1541459225⟩
  beBytes4 st.a ++ beBytes4 st.b ++ beBytes4 st.c ++ beBytes4 st.d ++
    beBytes4 st.e ++ beBytes4 st.f ++ beBytes4 st.g ++ beBytes4 st.h

/-- `hashlib.sha256(s.encode()).hexdigest()`. -/
def sha256Hexdigest (s : String) : String := hexBytes (sha256Bytes (utf8Encode s))

/-! ### Python values

The fragment of the Python value universe the claims exercise: atomic values
plus an opaque `obj` constructor standing for any object that has a default
textual representation but no JSON encoding (the library probes values with
`json.dumps`, `is_jsonable`). -/

/-- A Python value, as passed in call arguments or held in attributes. -/
inductive PyVal where
  | int (n : ℤ)
  | str (s : String)
  | bool (b : Bool)
  | none
  | obj (n : ℕ)
deriving DecidableEq

/-- The single-quote character used by Python `repr` of strings. -/
def pyQuoteChar : Char := Char.ofNat 39

/-- Python `repr(s)` for a string without quotes or escapes inside. -/
def pyQuote (s : String) : String :=
  String.singleton pyQuoteChar ++ s ++ String.singleton pyQuoteChar

/-- Python `repr` of a value (what `str` applies to tuple and dict
elements).  `obj` stands for the default textual representation of an
object. -/
def pyRepr : PyVal → String
  | PyVal.int n => toString n
  | PyVal.str s => pyQuote s
  | PyVal.bool b => if b then "True" else "False"
  | PyVal.none => "None"
  | PyVal.obj n => "<obj " ++ toString n ++ ">"

/-- Python `str` of a tuple of values (`str(self.args[1:])`): note the
trailing comma of one-element tuples. -/
def tupleStr (xs : List PyVal) : String :=
  match xs with
  | [] => "()"
  | [x] => "(" ++ pyRepr x ++ ",)"
  | _ => "(" ++ String.intercalate ", " (xs.map pyRepr) ++ ")"

/-- Python `str` of a keyword-argument dict (`str(self.kwargs)`). -/
def dictStr (kvs : List (String × PyVal)) : String :=
  "\x7b" ++
    String.intercalate ", " (kvs.map fun p => pyQuote p.1 ++ ": " ++ pyRepr p.2) ++
    "\x7d"

/-- `json.dumps(x, cls=DateTimeEncoder)` succeeds (`is_jsonable`): every
modelled value except opaque objects is JSON-encodable. -/
def is_jsonable : PyVal → Bool
  | PyVal.obj _ => false
  | _ => true

/-! ### `CachedFunction` (src/cacherator/cached_function.py)

One cached function call.  `args` holds `self.args[1:]`, the positional
arguments after the owner; the stringification of arguments is Python
`str`/`repr`, modelled by `tupleStr`/`dictStr`. -/

/-- One cached function call: the function's `__name__`, the positional
arguments after the owner, and the keyword arguments. -/
structure CachedFunction where
  funcName : String
  args : List PyVal
  kwargs : List (String × PyVal)
deriving DecidableEq

/-- `f"{self.func.__name__}{str(self.args[1:])}{str(self.kwargs)}"`. -/
def CachedFunction.function_name_with_args (cf : CachedFunction) : String :=
  cf.funcName ++ tupleStr cf.args ++ dictStr cf.kwargs

/-- `sha1(self.function_name_with_args.encode('utf-8')).hexdigest()`. -/
def CachedFunction.function_hash (cf : CachedFunction) : String :=
  sha1Hexdigest cf.function_name_with_args

/-- `CachedFunction.function_signature`: the canonical cache key. -/
def CachedFunction.function_signature (cf : CachedFunction) : String :=
  if cf.function_name_with_args.length < 180 then cf.function_name_with_args
  else cf.function_name_with_args.take 149 ++ "_" ++ cf.function_hash

/-! ### The `Cached` wrapper (src/cacherator/cached_function.py)

Wall-clock instants and durations are rationals, in microseconds.  A
Python TTL value is `None`, a number of days (int or float), or a
`timedelta`. -/

/-- One microsecond-denominated day, for `timedelta(days=ttl)`. -/
def microsPerDay : ℚ := 86400000000

/-- A non-`None` Python TTL value: a count of days (int/float) or a
`timedelta` duration. -/
inductive TTLVal where
  | num (days : ℚ)
  | delta (micros : ℚ)
deriving DecidableEq

/-- `timedelta(days=ttl) if isinstance(ttl, (int, float)) else ttl`, as a
duration in microseconds. -/
def TTLVal.toTimedelta : TTLVal → ℚ
  | TTLVal.num d => d * microsPerDay
  | TTLVal.delta m => m

/-- One stored cache entry: `{"value": ..., "date": datetime.now()}`. -/
structure CacheEntry (V : Type) where
  value : V
  date : ℚ
deriving DecidableEq

/-- The owner object as the wrapper sees it: its `_json_cache_ttl`, its
entry map `_json_cache_func_cache`, whether it exposes the
`json_cache_save` persistence hook (with a count of hook invocations), and
whether it exposes the optional `cache_status` capability. -/
structure Owner (V : Type) where
  jsonCacheTtl : TTLVal
  funcCache : List (String × CacheEntry V)
  hasSaveHook : Bool
  saveCount : ℕ
  hasStatus : Bool
  cacheStatus : List (String × String)
  lastCacheStatus : Option String
deriving DecidableEq

/-- Lookup in a Python dict modelled as an association list
(`dict.get`). -/
def assocGet (m : List (String × α)) (k : String) : Option α :=
  match m with
  | [] => Option.none
  | (k2, v) :: rest => if k2 = k then some v else assocGet rest k

/-- Assignment in a Python dict modelled as an association list: update in
place if the key exists, else append. -/
def assocSet (m : List (String × α)) (k : String) (v : α) : List (String × α) :=
  match m with
  | [] => [(k, v)]
  | (k2, v2) :: rest =>
      if k2 = k then (k2, v) :: rest else (k2, v2) :: assocSet rest k v

/-- The `Cached` decorator object: one per decorated function, shared by
every owner instance calling through that function. -/
structure Cached where
  clear_cache : Bool
  ttl : Option TTLVal
  run_function_signatures : List String
deriving DecidableEq

/-- `Cached.max_delta`: the effective TTL as a duration — the per-wrap TTL
if given, otherwise the owner's `_json_cache_ttl`; numbers count days. -/
def Cached.max_delta (c : Cached) (ownerTtl : TTLVal) : ℚ :=
  (match c.ttl with
   | Option.none => ownerTtl
   | some t => t).toTimedelta

/-- `Cached.retrieve_from_class_cache`. -/
def retrieve_from_class_cache (owner : Owner V) (sig : String) :
    Option (CacheEntry V) :=
  assocGet owner.funcCache sig

/-- `Cached.store_in_class_cache` (and its async twin, which differs only
in awaiting the call): run the function; on success write the entry into
the owner's map and trigger the persistence hook; an exception propagates
before any mutation. -/
def store_in_class_cache (owner : Owner V) (sig : String)
    (runResult : Except E V) (now : ℚ) : Except E (CacheEntry V × Owner V) :=
  match runResult with
  | Except.error e => Except.error e
  | Except.ok v =>
      let entry : CacheEntry V := ⟨v, now⟩
      Except.ok (entry,
        { owner with
            funcCache := assocSet owner.funcCache sig entry,
            saveCount :=
              if owner.hasSaveHook then owner.saveCount + 1 else owner.saveCount })

/-- The optional `cache_status` / `last_cache_status` updates, guarded by
`hasattr(obj, 'cache_status')`. -/
def setStatus (owner : Owner V) (sig status : String) : Owner V :=
  if owner.hasStatus then
    { owner with
        cacheStatus := assocSet owner.cacheStatus sig status,
        lastCacheStatus := some status }
  else owner

/-- Everything one invocation of the wrapper produces: the returned value
or propagated exception, the updated owner, the updated wrapper state, and
whether the underlying operation was invoked. -/
structure CallOutcome (V E : Type) where
  result : Except E V
  owner : Owner V
  wrapper : Cached
  invoked : Bool

/-- One invocation of the synchronous wrapper built by `Cached.__call__`
(the asynchronous wrapper runs the identical steps around an `await`).
`func` is the underlying operation's behaviour on the call's arguments;
it is only applied on the miss path. -/
def Cached.call (c : Cached) (owner : Owner V)
    (func : List PyVal → List (String × PyVal) → Except E V)
    (funcName : String) (args : List PyVal) (kwargs : List (String × PyVal))
    (now : ℚ) : CallOutcome V E :=
  let cf : CachedFunction := ⟨funcName, args, kwargs⟩
  let sig := cf.function_signature
  let retrieved := retrieve_from_class_cache owner sig
  let has_run := c.run_function_signatures.contains sig
  let can_retrieve := !c.clear_cache || has_run
  let md := c.max_delta owner.jsonCacheTtl
  let miss : CallOutcome V E :=
    match store_in_class_cache owner sig (func args kwargs) now with
    | Except.error e =>
        { result := Except.error e, owner := owner, wrapper := c, invoked := true }
    | Except.ok (entry, owner2) =>
        { result := Except.ok entry.value,
          owner := setStatus owner2 sig "miss",
          wrapper :=
            { c with run_function_signatures := c.run_function_signatures ++ [sig] },
          invoked := true }
  match retrieved with
  | some entry =>
      if can_retrieve && decide (entry.date + md > now) then
        { result := Except.ok entry.value,
          owner := setStatus owner sig "hit",
          wrapper := c, invoked := false }
      else miss
  | Option.none => miss

/-! ### Helper lemmas about the wrapper semantics -/

@[simp]
theorem setStatus_funcCache (o : Owner V) (s st : String) :
    (setStatus o s st).funcCache = o.funcCache := by
  unfold setStatus; split <;> rfl

@[simp]
theorem setStatus_jsonCacheTtl (o : Owner V) (s st : String) :
    (setStatus o s st).jsonCacheTtl = o.jsonCacheTtl := by
  unfold setStatus; split <;> rfl

@[simp]
theorem setStatus_saveCount (o : Owner V) (s st : String) :
    (setStatus o s st).saveCount = o.saveCount := by
  unfold setStatus; split <;> rfl

@[simp]
theorem setStatus_hasSaveHook (o : Owner V) (s st : String) :
    (setStatus o s st).hasSaveHook = o.hasSaveHook := by
  unfold setStatus; split <;> rfl

@[simp]
theorem setStatus_hasStatus (o : Owner V) (s st : String) :
    (setStatus o s st).hasStatus = o.hasStatus := by
  unfold setStatus; split <;> rfl

@[simp]
theorem assocGet_assocSet_self (m : List (String × α)) (k : String) (v : α) :
    assocGet (assocSet m k v) k = some v := by
  induction m with
  | nil => simp [assocSet, assocGet]
  | cons p rest ih =>
      by_cases h : p.1 = k <;> simp [assocSet, assocGet, h, ih]

@[simp]
theorem assocGet_assocSet_other (m : List (String × α)) (k k2 : String) (v : α)
    (h : k ≠ k2) : assocGet (assocSet m k v) k2 = assocGet m k2 := by
  induction m with
  | nil => simp [assocSet, assocGet, h]
  | cons p rest ih =>
      by_cases h2 : p.1 = k
      · have h4 : p.1 ≠ k2 := h2 ▸ h
        simp [assocSet, assocGet, h2, h4, h]
      · simp [assocSet, assocGet, h2, ih]

/-- The wrapper's hit condition, as one Boolean: an entry for the key
exists, the clear flag allows retrieval, and the entry is fresh at
`now`. -/
def hitTest (c : Cached) (owner : Owner V) (sig : String) (now : ℚ) : Bool :=
  match retrieve_from_class_cache owner sig with
  | some entry =>
      (!c.clear_cache || c.run_function_signatures.contains sig) &&
        decide (entry.date + c.max_delta owner.jsonCacheTtl > now)
  | Option.none => false

/-- Specification of one wrapper invocation: on a hit the stored value is
returned and nothing is mutated but the status fields; on a miss the
underlying result decides between the error outcome (untouched state) and
the store-and-append outcome. -/
theorem Cached.call_spec {V E : Type} (c : Cached) (owner : Owner V)
    (func : List PyVal → List (String × PyVal) → Except E V)
    (fn : String) (args : List PyVal) (kwargs : List (String × PyVal)) (now : ℚ) :
    (hitTest c owner (CachedFunction.mk fn args kwargs).function_signature now = true →
      ∃ entry, retrieve_from_class_cache owner
          (CachedFunction.mk fn args kwargs).function_signature = some entry ∧
        c.call owner func fn args kwargs now =
          { result := Except.ok entry.value,
            owner := setStatus owner (CachedFunction.mk fn args kwargs).function_signature "hit",
            wrapper := c, invoked := false }) ∧
    (hitTest c owner (CachedFunction.mk fn args kwargs).function_signature now = false →
      c.call owner func fn args kwargs now =
        match store_in_class_cache owner (CachedFunction.mk fn args kwargs).function_signature
            (func args kwargs) now with
        | Except.error e =>
            { result := Except.error e, owner := owner, wrapper := c, invoked := true }
        | Except.ok (entry, owner2) =>
            { result := Except.ok entry.value,
              owner := setStatus owner2 (CachedFunction.mk fn args kwargs).function_signature "miss",
              wrapper :=
                { c with run_function_signatures := c.run_function_signatures ++
                    [(CachedFunction.mk fn args kwargs).function_signature] },
              invoked := true }) := by
  constructor
  · intro h
    unfold hitTest at h
    unfold Cached.call
    cases hget : retrieve_from_class_cache owner
        (CachedFunction.mk fn args kwargs).function_signature with
    | none => rw [hget] at h; exact absurd h (by simp)
    | some entry =>
        rw [hget] at h
        simp only at h
        exact ⟨entry, rfl, by simp only [h, if_true, hget]⟩
  · intro h
    unfold hitTest at h
    unfold Cached.call
    cases hget : retrieve_from_class_cache owner
        (CachedFunction.mk fn args kwargs).function_signature with
    | none => simp only [hget]
    | some entry =>
        rw [hget] at h
        simp only at h
        simp only [hget, h, Bool.false_eq_true, if_false]

/-- Fresh-at-`now` can only turn false as the clock moves forward: a call
that missed at `now` also misses at any later instant (the stored state
unchanged). -/
theorem hitTest_mono {V : Type} (c : Cached) (owner : Owner V) (sig : String)
    (now now2 : ℚ) (h : hitTest c owner sig now = false) (hle : now ≤ now2) :
    hitTest c owner sig now2 = false := by
  unfold hitTest at h ⊢
  cases hget : retrieve_from_class_cache owner sig with
  | none => rfl
  | some entry =>
      rw [hget] at h
      simp only at h ⊢
      rcases Bool.and_eq_false_iff.mp h with h1 | h1
      · rw [h1, Bool.false_and]
      · have h2 : ¬ entry.date + c.max_delta owner.jsonCacheTtl > now := by
          simpa using h1
        have h3 : ¬ entry.date + c.max_delta owner.jsonCacheTtl > now2 := by
          intro hc; exact h2 (lt_of_le_of_lt hle hc)
        simp [h3]

/-! ### Claim theorems C1 – C5 -/

/-- C1: for a deterministic wrapped operation, two invocations through the
`Cached` wrapper with identical positional and keyword arguments, the
second occurring before the stored date plus the effective TTL and with
the clear flag unset, return equal values and the underlying operation is
invoked exactly once — the first call (on a cold key) runs it, the second
is a hit served from the owner's entry map. -/
theorem C1_idempotent_hit {V E : Type} (c : Cached) (owner : Owner V)
    (func : List PyVal → List (String × PyVal) → Except E V)
    (funcName : String) (args : List PyVal) (kwargs : List (String × PyVal))
    (t₁ t₂ : ℚ) (v : V)
    (hclear : c.clear_cache = false)
    (hcold : retrieve_from_class_cache owner
        (CachedFunction.mk funcName args kwargs).function_signature = Option.none)
    (hok : func args kwargs = Except.ok v)
    (hfresh : t₂ < t₁ + c.max_delta owner.jsonCacheTtl) :
    (c.call owner func funcName args kwargs t₁).result = Except.ok v ∧
    (c.call owner func funcName args kwargs t₁).invoked = true ∧
    ((c.call owner func funcName args kwargs t₁).wrapper.call
        (c.call owner func funcName args kwargs t₁).owner
        func funcName args kwargs t₂).result = Except.ok v ∧
    ((c.call owner func funcName args kwargs t₁).wrapper.call
        (c.call owner func funcName args kwargs t₁).owner
        func funcName args kwargs t₂).invoked = false := by
  simp only [Cached.max_delta] at hfresh
  simp only [Cached.call, hcold, hok, store_in_class_cache, hclear]
  simp [retrieve_from_class_cache, Cached.max_delta, hfresh]

/-- Default-configuration wrapper for the C1 witness scenario. -/
def c1Wrapper : Cached := ⟨false, Option.none, []⟩

/-- Owner with the 999-day default TTL, empty entry map, save hook
present. -/
def c1Owner : Owner ℤ := ⟨TTLVal.num 999, [], true, 0, false, [], Option.none⟩

/-- The deterministic squaring operation at argument 7. -/
def c1Func : List PyVal → List (String × PyVal) → Except Unit ℤ :=
  fun _ _ => Except.ok 49

unseal Rat.add Rat.mul in
/-- Witness for C1: `cached_square(7)` computed at time 0 and re-requested
at time 5 (well inside the 999-day default TTL) returns 49 both times,
with the underlying operation run only on the first call. -/
theorem C1_idempotent_hit_witness :
    c1Wrapper.clear_cache = false ∧
    ((5:ℚ) < 0 + c1Wrapper.max_delta c1Owner.jsonCacheTtl) ∧
    (c1Wrapper.call c1Owner c1Func "cached_square" [PyVal.int 7] [] 0).result =
      Except.ok 49 ∧
    ((c1Wrapper.call c1Owner c1Func "cached_square" [PyVal.int 7] [] 0).wrapper.call
      (c1Wrapper.call c1Owner c1Func "cached_square" [PyVal.int 7] [] 0).owner
      c1Func "cached_square" [PyVal.int 7] [] 5).invoked = false :=
  ⟨rfl, by decide,
   (C1_idempotent_hit c1Wrapper c1Owner c1Func _ _ _ 0 5 49 rfl rfl rfl
      (by decide)).1,
   (C1_idempotent_hit c1Wrapper c1Owner c1Func _ _ _ 0 5 49 rfl rfl rfl
      (by decide)).2.2.2⟩

/-- C2: when the underlying operation raises, the exception propagates
unchanged, no entry is written into the owner's map, the fingerprint is
not appended to the recently-run keys, the persistence hook is not
triggered (the owner and wrapper states are exactly unchanged), the
underlying operation was invoked, and a subsequent call at any later
instant invokes it again. -/
theorem C2_exceptions_not_cached {V E : Type} (c : Cached) (owner : Owner V)
    (func : List PyVal → List (String × PyVal) → Except E V)
    (fn : String) (args : List PyVal) (kwargs : List (String × PyVal))
    (now now2 : ℚ) (e : E)
    (herr : (c.call owner func fn args kwargs now).result = Except.error e)
    (hmono : now ≤ now2) :
    func args kwargs = Except.error e ∧
    (c.call owner func fn args kwargs now).owner = owner ∧
    (c.call owner func fn args kwargs now).wrapper = c ∧
    (c.call owner func fn args kwargs now).invoked = true ∧
    (c.call owner func fn args kwargs now2).invoked = true := by
  have spec := Cached.call_spec c owner func fn args kwargs now
  cases hht : hitTest c owner (CachedFunction.mk fn args kwargs).function_signature now with
  | true =>
      obtain ⟨entry, hget, heq⟩ := spec.1 hht
      rw [heq] at herr
      simp at herr
  | false =>
      have heq := spec.2 hht
      cases hrun : func args kwargs with
      | ok v =>
          rw [hrun] at heq
          simp only [store_in_class_cache] at heq
          rw [heq] at herr
          simp at herr
      | error e2 =>
          rw [hrun] at heq
          simp only [store_in_class_cache] at heq
          rw [heq] at herr
          simp only at herr
          obtain rfl : e2 = e := by cases herr; rfl
          have hht2 := hitTest_mono c owner _ now now2 hht hmono
          have spec2 := (Cached.call_spec c owner func fn args kwargs now2).2 hht2
          rw [hrun] at spec2
          simp only [store_in_class_cache] at spec2
          rw [heq, spec2]
          exact ⟨rfl, rfl, rfl, rfl, rfl⟩

/-- An operation that always raises, for the C2 witness scenario. -/
def c2Func : List PyVal → List (String × PyVal) → Except String ℤ :=
  fun _ _ => Except.error "boom"

/-- Witness for C2: an operation that always raises leaves the owner's
entry map, save counter and the wrapper's recently-run list untouched and
is invoked again on the retry. -/
theorem C2_exceptions_not_cached_witness :
    (c1Wrapper.call c1Owner c2Func "explode" [PyVal.bool true] [] 0).result =
      Except.error "boom" ∧
    (c1Wrapper.call c1Owner c2Func "explode" [PyVal.bool true] [] 0).owner =
      c1Owner ∧
    (c1Wrapper.call c1Owner c2Func "explode" [PyVal.bool true] [] 1).invoked = true :=
  ⟨rfl,
   (C2_exceptions_not_cached c1Wrapper c1Owner c2Func _ _ _ 0 1 "boom" rfl
      (by norm_num)).2.1,
   (C2_exceptions_not_cached c1Wrapper c1Owner c2Func _ _ _ 0 1 "boom" rfl
      (by norm_num)).2.2.2.2⟩

/-- C3: the cache key is a pure function of the operation name, the
stringified positional arguments after the owner, and the stringified
keyword arguments: their concatenation when it is shorter than 180
characters, otherwise its first 149 characters, an underscore, and the
SHA-1 hex digest of the full concatenation. -/
theorem C3_canonical_key (cf : CachedFunction) :
    cf.function_signature =
      (if (cf.funcName ++ tupleStr cf.args ++ dictStr cf.kwargs).length < 180
       then cf.funcName ++ tupleStr cf.args ++ dictStr cf.kwargs
       else (cf.funcName ++ tupleStr cf.args ++ dictStr cf.kwargs).take 149 ++ "_" ++
         sha1Hexdigest (cf.funcName ++ tupleStr cf.args ++ dictStr cf.kwargs)) := rfl

/-- C4: the effective TTL is the per-wrap TTL when given, else the owner's
default; numeric TTL values count days; and a stored entry (with the clear
flag permitting retrieval) is served as a hit exactly when its stored
date plus the effective TTL is strictly after the clock at hit-check
time. -/
theorem C4_ttl_resolution {V E : Type} (c : Cached) (owner : Owner V)
    (func : List PyVal → List (String × PyVal) → Except E V)
    (fn : String) (args : List PyVal) (kwargs : List (String × PyVal))
    (now : ℚ) (entry : CacheEntry V)
    (hget : retrieve_from_class_cache owner
        (CachedFunction.mk fn args kwargs).function_signature = some entry)
    (hcan : (!c.clear_cache ||
        c.run_function_signatures.contains
          (CachedFunction.mk fn args kwargs).function_signature) = true) :
    ((c.call owner func fn args kwargs now).invoked = false ↔
        entry.date + c.max_delta owner.jsonCacheTtl > now) ∧
    (entry.date + c.max_delta owner.jsonCacheTtl > now →
        (c.call owner func fn args kwargs now).result = Except.ok entry.value) ∧
    (∀ (b : Bool) (l : List String) (t : TTLVal) (ot : TTLVal),
        (Cached.mk b (some t) l).max_delta ot = t.toTimedelta) ∧
    (∀ (b : Bool) (l : List String) (ot : TTLVal),
        (Cached.mk b Option.none l).max_delta ot = ot.toTimedelta) ∧
    (∀ q : ℚ, (TTLVal.num q).toTimedelta = q * microsPerDay) := by
  have spec := Cached.call_spec c owner func fn args kwargs now
  by_cases hfr : entry.date + c.max_delta owner.jsonCacheTtl > now
  · have hht : hitTest c owner
        (CachedFunction.mk fn args kwargs).function_signature now = true := by
      unfold hitTest
      rw [hget]
      simp only [hcan, Bool.true_and]
      exact decide_eq_true hfr
    obtain ⟨entry2, hget2, heq⟩ := spec.1 hht
    rw [hget] at hget2
    obtain rfl : entry2 = entry := by cases hget2; rfl
    rw [heq]
    exact ⟨by simp [hfr], fun _ => rfl, fun _ _ _ _ => rfl, fun _ _ _ => rfl,
      fun _ => rfl⟩
  · have hht : hitTest c owner
        (CachedFunction.mk fn args kwargs).function_signature now = false := by
      unfold hitTest
      rw [hget]
      simp only
      rw [decide_eq_false hfr, Bool.and_false]
    have heq := spec.2 hht
    refine ⟨?_, fun h => absurd h hfr, fun _ _ _ _ => rfl, fun _ _ _ => rfl,
      fun _ => rfl⟩
    rw [heq]
    constructor
    · intro h
      exfalso
      cases hrun : func args kwargs with
      | ok v => rw [hrun] at h; simp [store_in_class_cache] at h
      | error e2 => rw [hrun] at h; simp [store_in_class_cache] at h
    · intro h; exact absurd h hfr

/-- Wrapper with a per-wrap 2-microsecond timedelta TTL, for the C4
witness. -/
def c4Wrapper : Cached := ⟨false, some (TTLVal.delta 2), []⟩

/-- Owner holding a stored entry (value 7, stored at time 0) for the
fingerprint of `f(3)`. -/
def c4Owner : Owner ℤ :=
  ⟨TTLVal.num 999, [("f(3,){}", ⟨7, 0⟩)], true, 0, false, [], Option.none⟩

/-- The recompute operation for the C4 witness. -/
def c4Func : List PyVal → List (String × PyVal) → Except Unit ℤ :=
  fun _ _ => Except.ok 0

/-- Witness for C4: an entry stored at time 0 under a 2-microsecond
per-wrap timedelta TTL is a hit at time 1. -/
theorem C4_ttl_resolution_witness :
    retrieve_from_class_cache c4Owner
        (CachedFunction.mk "f" [PyVal.int 3] []).function_signature =
      some ⟨(7:ℤ), 0⟩ ∧
    ((c4Wrapper.call c4Owner c4Func "f" [PyVal.int 3] [] 1).invoked = false ↔
      (0:ℚ) + c4Wrapper.max_delta c4Owner.jsonCacheTtl > 1) :=
  ⟨by decide,
   (C4_ttl_resolution c4Wrapper c4Owner c4Func _ _ _ 1 ⟨(7:ℤ), 0⟩ (by decide)
      (by decide)).1⟩

/-! ### C5: the recently-run keys live on the wrapper, not on the owner
instance.  Concrete scenario: one decorated function (one `Cached`
object), two owner instances.  Owner A's call appends the key to the
wrapper's `run_function_signatures`; owner B's very first call through
the same wrapper with the clear flag still set is then served from B's
stored entry — the claim's per-owner-instance reading would demand a
recomputation. -/

/-- One `Cached` decorator object with the clear flag set. -/
def c5Wrapper : Cached := ⟨true, Option.none, []⟩

/-- Owner instance A: empty entry map. -/
def c5OwnerA : Owner ℤ := ⟨TTLVal.num 999, [], false, 0, false, [], Option.none⟩

/-- Owner instance B: holds a fresh stored entry (value 99, stored at
time 0) for the fingerprint of `f(3)`. -/
def c5OwnerB : Owner ℤ :=
  ⟨TTLVal.num 999, [("f(3,){}", ⟨99, 0⟩)], false, 0, false, [], Option.none⟩

/-- Owner A calls `f(3)` through the shared wrapper at time 0. -/
def c5Call1 : CallOutcome ℤ Unit :=
  c5Wrapper.call c5OwnerA (fun _ _ => Except.ok 1) "f" [PyVal.int 3] [] 0

/-- Owner B then calls `f(3)` through the same wrapper at time 5 — B's
first call to this fingerprint. -/
def c5Call2 : CallOutcome ℤ Unit :=
  c5Call1.wrapper.call c5OwnerB (fun _ _ => Except.ok 2) "f" [PyVal.int 3] [] 5

unseal Rat.add Rat.mul in
/-- C5 counterexample: after owner A's call, owner B's FIRST call to the
fingerprint, with the clear flag set, does not recompute: it is served
from B's stored entry (result 99, underlying operation not invoked),
because the recently-run list belongs to the shared wrapper object and
the fingerprint excludes the owner.  Under the claim's per-owner-instance
reading, B's first call would have had to invoke the operation. -/
theorem C5_counterexample :
    c5Call1.invoked = true ∧
    c5Call1.wrapper.run_function_signatures = ["f(3,){}"] ∧
    c5Call2.invoked = false ∧
    c5Call2.result = Except.ok 99 :=
  ⟨rfl, rfl, by decide, by rfl⟩

/-- C5 amended: `canUseStored = (not clearFlag) OR (key in the wrapper's
recently-run keys)`; the recently-run list is state of the `Cached`
wrapper object shared by every owner instance, and the fingerprint
excludes the owner, so a key computed through one owner instance counts
as recently run for a different owner instance: with the clear flag set,
the first call to a cold fingerprint recomputes (i), appends the key to
the wrapper's list (ii), and a later call through ANY owner instance
holding a fresh stored entry is served from the store (iii, iv). -/
theorem C5_clear_flag_amended {V E : Type} (c : Cached) (ownerA ownerB : Owner V)
    (func g : List PyVal → List (String × PyVal) → Except E V)
    (fn : String) (args : List PyVal) (kwargs : List (String × PyVal))
    (t₁ t₂ : ℚ) (v : V) (entry : CacheEntry V)
    (hclear : c.clear_cache = true)
    (hnotrun : c.run_function_signatures.contains
        (CachedFunction.mk fn args kwargs).function_signature = false)
    (hok : func args kwargs = Except.ok v)
    (hgetB : retrieve_from_class_cache ownerB
        (CachedFunction.mk fn args kwargs).function_signature = some entry)
    (hfresh : entry.date + c.max_delta ownerB.jsonCacheTtl > t₂) :
    (c.call ownerA func fn args kwargs t₁).invoked = true ∧
    (c.call ownerA func fn args kwargs t₁).wrapper.run_function_signatures.contains
        (CachedFunction.mk fn args kwargs).function_signature = true ∧
    ((c.call ownerA func fn args kwargs t₁).wrapper.call ownerB g fn args kwargs t₂).invoked
        = false ∧
    ((c.call ownerA func fn args kwargs t₁).wrapper.call ownerB g fn args kwargs t₂).result
        = Except.ok entry.value := by
  have hht1 : hitTest c ownerA
      (CachedFunction.mk fn args kwargs).function_signature t₁ = false := by
    unfold hitTest
    cases hg : retrieve_from_class_cache ownerA
        (CachedFunction.mk fn args kwargs).function_signature with
    | none => rfl
    | some entry2 =>
        simp only
        rw [hclear, hnotrun]
        rfl
  have heq := (Cached.call_spec c ownerA func fn args kwargs t₁).2 hht1
  rw [hok] at heq
  simp only [store_in_class_cache] at heq
  rw [heq]
  have hcont : ({ c with run_function_signatures := c.run_function_signatures ++
      [(CachedFunction.mk fn args kwargs).function_signature] } : Cached).run_function_signatures.contains
      (CachedFunction.mk fn args kwargs).function_signature = true := by
    simp
  have hht2 : hitTest
      { c with run_function_signatures := c.run_function_signatures ++
        [(CachedFunction.mk fn args kwargs).function_signature] } ownerB
      (CachedFunction.mk fn args kwargs).function_signature t₂ = true := by
    unfold hitTest
    rw [hgetB]
    simp only [hcont, Bool.or_true, Bool.true_and]
    exact decide_eq_true hfresh
  obtain ⟨entry2, hget2, heq2⟩ :=
    (Cached.call_spec _ ownerB g fn args kwargs t₂).1 hht2
  rw [hgetB] at hget2
  obtain rfl : entry2 = entry := by cases hget2; rfl
  rw [heq2]
  exact ⟨rfl, hcont, rfl, rfl⟩

/-- The two operations of the C5 witness scenario. -/
def c5FuncA : List PyVal → List (String × PyVal) → Except Unit ℤ :=
  fun _ _ => Except.ok 1

/-- The operation owner B would run on a miss in the C5 scenario. -/
def c5FuncB : List PyVal → List (String × PyVal) → Except Unit ℤ :=
  fun _ _ => Except.ok 2

unseal Rat.add Rat.mul in
/-- Witness for C5's amended statement, on the concrete two-owner
scenario. -/
theorem C5_clear_flag_amended_witness :
    c5Wrapper.clear_cache = true ∧
    (0:ℚ) + c5Wrapper.max_delta c5OwnerB.jsonCacheTtl > 5 ∧
    ((c5Wrapper.call c5OwnerA c5FuncA "f" [PyVal.int 3] [] 0).wrapper.call
        c5OwnerB c5FuncB "f" [PyVal.int 3] [] (5:ℚ)).result = Except.ok (99:ℤ) :=
  ⟨rfl, by decide,
   (C5_clear_flag_amended c5Wrapper c5OwnerA c5OwnerB c5FuncA c5FuncB
      "f" [PyVal.int 3] [] 0 5 1 ⟨99, 0⟩ rfl rfl rfl rfl (by decide)).2.2.2⟩

/-! ### Datetimes (src/cacherator/cacherator.py)

The persisted document stores timestamps in the fixed textual format
`_DATETIME_FORMAT = "%Y-%m-%dT%H:%M:%S.%f"`; loading parses them with
`datetime.strptime`.  A parsed datetime is converted to the rational
microsecond scale used for all instants. -/

/-- A parsed Python `datetime` (naive, microsecond precision). -/
structure PyDateTime where
  year : ℕ
  month : ℕ
  day : ℕ
  hour : ℕ
  minute : ℕ
  second : ℕ
  micro : ℕ
deriving DecidableEq

/-- The Gregorian leap-year rule used by `datetime`. -/
def isLeapYear (y : ℕ) : Bool :=
  (y % 4 = 0 && !(y % 100 = 0)) || y % 400 = 0

/-- Days in a month, as validated by the `datetime` constructor. -/
def daysInMonth (y mo : ℕ) : ℕ :=
  if mo = 2 then (if isLeapYear y then 29 else 28)
  else if mo = 4 ∨ mo = 6 ∨ mo = 9 ∨ mo = 11 then 30
  else 31

/-- Read exactly `n` decimal digits, returning their value and the rest. -/
def readDigits : ℕ → ℕ → List Char → Option (ℕ × List Char)
  | 0, acc, l => some (acc, l)
  | n + 1, acc, c :: l =>
      if c.isDigit then readDigits n (acc * 10 + (c.toNat - 48)) l else Option.none
  | _ + 1, _, [] => Option.none

/-- Require one specific character. -/
def readChar (ch : Char) : List Char → Option (List Char)
  | c :: l => if c = ch then some l else Option.none
  | [] => Option.none

/-- Read the `%f` field: one to six digits running to the end of the
string, right-padded to microseconds as `strptime` does. -/
def readFrac : List Char → ℕ → ℕ → Option ℕ
  | [], k, acc => if 1 ≤ k then some (acc * 10 ^ (6 - k)) else Option.none
  | c :: l, k, acc =>
      if c.isDigit && k < 6 then readFrac l (k + 1) (acc * 10 + (c.toNat - 48))
      else Option.none

/-- Read one numeric field of width `n` followed by the separator `sep`. -/
def readFieldSep (n : ℕ) (sep : Char) (l : List Char) : Option (ℕ × List Char) :=
  match readDigits n 0 l with
  | some (v, l2) =>
      (match readChar sep l2 with
       | some l3 => some (v, l3)
       | Option.none => Option.none)
  | Option.none => Option.none

/-- The date part `%Y-%m-%dT`. -/
def readDatePart (l : List Char) : Option (ℕ × ℕ × ℕ × List Char) :=
  match readFieldSep 4 (Char.ofNat 45) l with
  | some (y, l1) =>
      (match readFieldSep 2 (Char.ofNat 45) l1 with
       | some (mo, l2) =>
           (match readFieldSep 2 (Char.ofNat 84) l2 with
            | some (d, l3) => some (y, mo, d, l3)
            | Option.none => Option.none)
       | Option.none => Option.none)
  | Option.none => Option.none

/-- The time part `%H:%M:%S.%f`, running to the end of the string. -/
def readTimePart (l : List Char) : Option (ℕ × ℕ × ℕ × ℕ) :=
  match readFieldSep 2 (Char.ofNat 58) l with
  | some (h, l1) =>
      (match readFieldSep 2 (Char.ofNat 58) l1 with
       | some (mi, l2) =>
           (match readFieldSep 2 (Char.ofNat 46) l2 with
            | some (sec, l3) =>
                (match readFrac l3 0 0 with
                 | some us => some (h, mi, sec, us)
                 | Option.none => Option.none)
            | Option.none => Option.none)
       | Option.none => Option.none)
  | Option.none => Option.none

/-- `datetime.strptime(s, "%Y-%m-%dT%H:%M:%S.%f")`: parse the library's
fixed textual datetime format, validating field ranges as the `datetime`
constructor does. -/
def strptimeIso (s : String) : Option PyDateTime :=
  match readDatePart s.data with
  | some (y, mo, d, l) =>
      (match readTimePart l with
       | some (h, mi, sec, us) =>
           if 1 ≤ y ∧ y ≤ 9999 ∧ 1 ≤ mo ∧ mo ≤ 12 ∧ 1 ≤ d ∧ d ≤ daysInMonth y mo ∧
               h ≤ 23 ∧ mi ≤ 59 ∧ sec ≤ 59 then
             some ⟨y, mo, d, h, mi, sec, us⟩
           else Option.none
       | Option.none => Option.none)
  | Option.none => Option.none

/-- Days from 1970-01-01 of a Gregorian civil date (era-based civil
calendar arithmetic; every division below is of non-negative values since
the parser guarantees `year ≥ 1`). -/
def daysFromCivil (y mo d : ℕ) : ℤ :=
  let yAdj : ℤ := if mo ≤ 2 then (y : ℤ) - 1 else (y : ℤ)
  let era : ℤ := yAdj / 400
  let yoe : ℤ := yAdj - era * 400
  let mp : ℤ := if 2 < mo then (mo : ℤ) - 3 else (mo : ℤ) + 9
  let doy : ℤ := (153 * mp + 2) / 5 + (d : ℤ) - 1
  let doe : ℤ := yoe * 365 + yoe / 4 - yoe / 100 + doy
  era * 146097 + doe - 719468

/-- A parsed datetime on the rational microsecond scale. -/
def PyDateTime.toMicros (dt : PyDateTime) : ℚ :=
  ((daysFromCivil dt.year dt.month dt.day * 86400000000 +
    (dt.hour : ℤ) * 3600000000 + (dt.minute : ℤ) * 60000000 +
    (dt.second : ℤ) * 1000000 + (dt.micro : ℤ) : ℤ) : ℚ)

/-! ### `JSONCache` state and the persisted snapshot
(src/cacherator/cacherator.py)

The owner's `_json_cache_*` machinery fields become record fields; `attrs`
models the remaining entries of `vars(self)` (the owner's instance
attributes), `propNames` the names that are `property` objects on the
owner's type, and `excluded` the `_excluded_cache_vars` name list.  A
snapshot is the JSON document produced by `_json_cache_data`: entries hold
`datetime` dates, which `DateTimeEncoder` always serializes, so an entry
dict is JSON-encodable exactly when its `value` is. -/

/-- The in-memory JSON document built by `_json_cache_data`.  Equality of
snapshots models Python dict equality: both maps below are always the
sorted output of the builder, so sorted-list equality and
order-insensitive dict equality coincide on every snapshot the code
compares. -/
structure Snapshot where
  funcCache : List (String × CacheEntry PyVal)
  variableCache : List (String × PyVal)
  lastSaveDate : ℚ
deriving DecidableEq

/-- The state of one `JSONCache` owner instance. -/
structure JState where
  recentSaveData : Option Snapshot
  funcCache : List (String × CacheEntry PyVal)
  attrs : List (String × PyVal)
  propNames : List String
  excluded : List String
  ttl : TTLVal
deriving DecidableEq

/-- Lexicographic code-point comparison of character lists (Python string
`<=`; the core `String` order is semantically identical but is not
kernel-computable). -/
def charListLe : List Char → List Char → Bool
  | [], _ => true
  | _ :: _, [] => false
  | a :: as, b :: bs =>
      if a.toNat < b.toNat then true
      else if b.toNat < a.toNat then false
      else charListLe as bs

/-- Python string comparison `a <= b`. -/
def strLe (a b : String) : Bool := charListLe a.data b.data

/-- Insert a pair into a key-sorted association list. -/
def insertByKey (p : String × α) : List (String × α) → List (String × α)
  | [] => [p]
  | q :: rest => if strLe p.1 q.1 then p :: q :: rest else q :: insertByKey p rest

/-- Python `dict(sorted(d.items()))`: sort an association list by key. -/
def sortByKey (l : List (String × α)) : List (String × α) :=
  l.foldr insertByKey []

/-- Python `str.startswith`, on code points (the core byte-based
`String.startsWith` is semantically identical but is not
kernel-computable). -/
def startswith (s pre : String) : Bool := pre.data.isPrefixOf s.data

/-- `JSONCache._cached_variables`: the owner's instance attributes that are
not `property` objects of the owner's type, are not `_json_cache`-prefixed,
are not named in `_excluded_cache_vars`, and are JSON-serializable, in
sorted key order. -/
def cached_variables (st : JState) : List (String × PyVal) :=
  sortByKey (st.attrs.filter (fun p =>
    !(st.propNames.contains p.1) &&
    !(startswith p.1 "_json_cache") &&
    !(st.excluded.contains p.1) &&
    is_jsonable p.2))

/-- `JSONCache._json_cache_data`: the snapshot of the entry map (restricted
to JSON-serializable entries not keyed by a `_json_cache_` name, sorted),
the variable cache, and the build-time timestamp. -/
def json_cache_data (st : JState) (now : ℚ) : Snapshot :=
  { funcCache := sortByKey (st.funcCache.filter (fun p =>
      !(startswith p.1 "_json_cache_") && is_jsonable p.2.value)),
    variableCache := cached_variables st,
    lastSaveDate := now }

/-- What one `_json_cache_save_inner` run produces: whether the file was
written, the document written (if any), and the resulting owner state. -/
structure SaveOutcome where
  written : Bool
  fileData : Option Snapshot
  state : JState

/-- `JSONCache._json_cache_save_inner`: build the snapshot at the current
instant and skip the write exactly when it equals the recorded
recent-save data; the state (including the recorded snapshot) is never
modified. -/
def json_cache_save_inner (st : JState) (now : ℚ) : SaveOutcome :=
  if st.recentSaveData = some (json_cache_data st now) then ⟨false, Option.none, st⟩
  else ⟨true, some (json_cache_data st now), st⟩

/-- One entry of the persisted on-disk document: the JSON value and the
textual date. -/
structure PersistedEntry where
  value : PyVal
  date : String
deriving DecidableEq

/-- The parsed on-disk JSON document (shape already validated: the
entry-map key is present). -/
structure PersistedData where
  funcCache : List (String × PersistedEntry)
  variableCache : List (String × PyVal)
  lastSaveDate : Option String
deriving DecidableEq

/-- `JSONCache._load_variables_from_data`: no restore without a last-save
timestamp; otherwise parse it (`Option.none` models the `ValueError` that
aborts the load), convert a numeric TTL to days, and restore every
variable-cache pair onto the owner's attributes exactly when
`lastSave + ttl > now`. -/
def load_variables_from_data (st : JState) (data : PersistedData) (now : ℚ) :
    Option JState :=
  match data.lastSaveDate with
  | Option.none => some st
  | some s =>
      match strptimeIso s with
      | Option.none => Option.none
      | some dt =>
          if dt.toMicros + st.ttl.toTimedelta > now then
            some { st with attrs :=
              data.variableCache.foldl (fun a p => assocSet a p.1 p.2) st.attrs }
          else some st

/-- `JSONCache._load_function_cache_from_data`, one persisted entry at a
time: write the entry into the owner's map with its date parsed from the
fixed textual format; an unparsable date raises `ValueError`, which stops
the loop keeping the entries already written (`false` flag; the
half-written entry whose date stays textual is outside the modelled
state space). -/
def loadFuncCacheAux (fc : List (String × CacheEntry PyVal)) :
    List (String × PersistedEntry) → List (String × CacheEntry PyVal) × Bool
  | [] => (fc, true)
  | (k, pe) :: rest =>
      match strptimeIso pe.date with
      | some dt => loadFuncCacheAux (assocSet fc k ⟨pe.value, dt.toMicros⟩) rest
      | Option.none => (fc, false)

/-- `JSONCache._load_function_cache_from_data`. -/
def load_function_cache_from_data (st : JState) (data : PersistedData) :
    JState × Bool :=
  let r := loadFuncCacheAux st.funcCache data.funcCache
  ({ st with funcCache := r.1 }, r.2)

/-- The owner state after the two restore passes of
`_json_cache_load_inner` (exceptions in either pass are caught, keeping
the state reached so far). -/
def loadRestoredState (st : JState) (data : PersistedData) (now : ℚ) : JState :=
  match load_variables_from_data st data now with
  | Option.none => st
  | some s => (load_function_cache_from_data s data).1

/-- `JSONCache._json_cache_load_inner`: `Option.none` stands for every
early return (missing file, JSON decode error, unrecognizable shape) —
the state is untouched; otherwise restore, then record the freshly built
snapshot (embedding the load-time instant) as the recent-save data. -/
def json_cache_load_inner (st : JState) (data : Option PersistedData) (now : ℚ) :
    JState :=
  match data with
  | Option.none => st
  | some d =>
      let st1 := loadRestoredState st d now
      { st1 with recentSaveData := some (json_cache_data st1 now) }

/-! ### File naming (src/cacherator/cacherator.py)

`slugify` is an external collaborator (python-slugify); it is modelled on
ASCII input: lowercase, replace each maximal run of non-alphanumeric
characters between words by one hyphen, and drop leading and trailing
separators. -/

/-- Character-by-character slug construction.  `started` records whether a
word character has been emitted; `pend` that a separator is owed before
the next word character. -/
def slugAux : List Char → Bool → Bool → List Char
  | [], _, _ => []
  | c :: rest, started, pend =>
      let lc := c.toLower
      if lc.isAlphanum then
        (if pend then [Char.ofNat 45, lc] else [lc]) ++ slugAux rest true false
      else
        slugAux rest started started

/-- Modelled external collaborator `slugify` (ASCII fragment). -/
def slugify (s : String) : String := ⟨slugAux s.data false false⟩

/-- The filename part of `JSONCache._json_cache_filename_with_path`:
short ids are used directly; ids of length ≥ 180 are truncated to 140
characters and suffixed with the SHA-256 hex digest of the full id; the
result is slugified and `.json` is appended. -/
def json_cache_filename (dataId : String) : String :=
  (slugify (if dataId.length < 180 then dataId
            else dataId.take 140 ++ "-" ++ sha256Hexdigest dataId)) ++ ".json"

/-- `JSONCache._json_cache_filename_with_path`: prefix the directory,
inserting a slash unless the directory is empty or already ends with
one. -/
def json_cache_filename_with_path (dataId directory : String) : String :=
  directory ++
    (if directory ≠ "" ∧ ¬ directory.endsWith "/" then "/" else "") ++
    json_cache_filename dataId

/-! ### Lemmas about key-sorting -/

theorem insertByKey_perm (p : String × α) (l : List (String × α)) :
    (insertByKey p l).Perm (p :: l) := by
  induction l with
  | nil => simp [insertByKey]
  | cons q rest ih =>
      unfold insertByKey
      split
      · exact List.Perm.refl _
      · exact (List.Perm.cons q ih).trans (List.Perm.swap p q rest)

theorem sortByKey_perm (l : List (String × α)) : (sortByKey l).Perm l := by
  induction l with
  | nil => simp [sortByKey]
  | cons p rest ih =>
      unfold sortByKey at *
      exact (insertByKey_perm p _).trans (List.Perm.cons p ih)

theorem mem_sortByKey (p : String × α) (l : List (String × α)) :
    p ∈ sortByKey l ↔ p ∈ l :=
  (sortByKey_perm l).mem_iff

theorem charListLe_total (a b : List Char) :
    charListLe a b = true ∨ charListLe b a = true := by
  induction a generalizing b with
  | nil => left; rfl
  | cons x as ih =>
      cases b with
      | nil => right; rfl
      | cons y bs =>
          by_cases hxy : x.toNat < y.toNat
          · left; simp [charListLe, hxy]
          · by_cases hyx : y.toNat < x.toNat
            · right; simp [charListLe, hyx]
            · rcases ih bs with h | h
              · left; simp [charListLe, hxy, hyx, h]
              · right; simp [charListLe, hxy, hyx, h]

theorem charListLe_trans (a b c : List Char) (h1 : charListLe a b = true)
    (h2 : charListLe b c = true) : charListLe a c = true := by
  induction a generalizing b c with
  | nil => rfl
  | cons x as ih =>
      cases b with
      | nil => simp [charListLe] at h1
      | cons y bs =>
          cases c with
          | nil => simp [charListLe] at h2
          | cons z cs =>
              by_cases hxy : x.toNat < y.toNat
              · by_cases hyz : y.toNat < z.toNat
                · simp [charListLe, show x.toNat < z.toNat by omega]
                · by_cases hzy : z.toNat < y.toNat
                  · simp [charListLe, hyz, hzy] at h2
                  · simp [charListLe, show x.toNat < z.toNat by omega]
              · by_cases hyx : y.toNat < x.toNat
                · simp [charListLe, hxy, hyx] at h1
                · by_cases hyz : y.toNat < z.toNat
                  · simp [charListLe, show x.toNat < z.toNat by omega]
                  · by_cases hzy : z.toNat < y.toNat
                    · simp [charListLe, hyz, hzy] at h2
                    · simp only [charListLe, hxy, hyx, if_false] at h1
                      simp only [charListLe, hyz, hzy, if_false] at h2
                      simp only [charListLe,
                        show ¬ x.toNat < z.toNat by omega,
                        show ¬ z.toNat < x.toNat by omega, if_false]
                      exact ih bs cs h1 h2

theorem strLe_total (a b : String) : strLe a b = true ∨ strLe b a = true :=
  charListLe_total a.data b.data

theorem strLe_trans (a b c : String) (h1 : strLe a b = true)
    (h2 : strLe b c = true) : strLe a c = true :=
  charListLe_trans a.data b.data c.data h1 h2

theorem insertByKey_sorted (p : String × α) (l : List (String × α))
    (h : l.Pairwise (fun a b => strLe a.1 b.1 = true)) :
    (insertByKey p l).Pairwise (fun a b => strLe a.1 b.1 = true) := by
  induction l with
  | nil => simp [insertByKey]
  | cons q rest ih =>
      rcases List.pairwise_cons.mp h with ⟨hq, hrest⟩
      by_cases hle : strLe p.1 q.1 = true
      · simp only [insertByKey, if_pos hle]
        refine List.pairwise_cons.mpr ⟨?_, h⟩
        intro b hb
        rcases List.mem_cons.mp hb with rfl | hb2
        · exact hle
        · exact strLe_trans _ _ _ hle (hq b hb2)
      · simp only [insertByKey, hle, if_false]
        refine List.pairwise_cons.mpr ⟨?_, ih hrest⟩
        intro b hb
        rcases List.mem_cons.mp ((insertByKey_perm p rest).mem_iff.mp hb) with heq | hb3
        · rw [heq]
          exact (strLe_total p.1 q.1).resolve_left hle
        · exact hq b hb3

theorem sortByKey_sorted (l : List (String × α)) :
    (sortByKey l).Pairwise (fun a b => strLe a.1 b.1 = true) := by
  induction l with
  | nil => simp [sortByKey]
  | cons p rest ih => exact insertByKey_sorted p _ ih

/-! ### Claim theorems C6, C7, C10 -/

/-- The entry map after a fully successful restore: every persisted entry
written over the in-memory map, its date parsed from the textual
format. -/
def restoredFuncCache (fc : List (String × CacheEntry PyVal))
    (l : List (String × PersistedEntry)) : List (String × CacheEntry PyVal) :=
  l.foldl (fun acc p =>
    match strptimeIso p.2.date with
    | some dt => assocSet acc p.1 ⟨p.2.value, dt.toMicros⟩
    | Option.none => acc) fc

theorem loadFuncCacheAux_all_parse (l : List (String × PersistedEntry))
    (fc : List (String × CacheEntry PyVal))
    (h : ∀ p ∈ l, (strptimeIso p.2.date).isSome) :
    loadFuncCacheAux fc l = (restoredFuncCache fc l, true) := by
  induction l generalizing fc with
  | nil => rfl
  | cons p rest ih =>
      have hp := h p (List.mem_cons_self p rest)
      cases hdt : strptimeIso p.2.date with
      | none => rw [hdt] at hp; simp at hp
      | some dt =>
          have e1 : loadFuncCacheAux fc (p :: rest) =
              loadFuncCacheAux (assocSet fc p.1 ⟨p.2.value, dt.toMicros⟩) rest := by
            simp only [loadFuncCacheAux, hdt]
          have e2 : restoredFuncCache fc (p :: rest) =
              restoredFuncCache (assocSet fc p.1 ⟨p.2.value, dt.toMicros⟩) rest := by
            unfold restoredFuncCache
            simp only [List.foldl_cons, hdt]
          rw [e1, e2]
          exact ih _ (fun q hq => h q (List.mem_cons_of_mem p hq))

/-- C6: with a parsable last-save timestamp present, the variable snapshot
is restored onto the owner's attributes (each pair overwriting, via
`assocSet`) exactly when `lastSave + ttlDefault > now`; with no timestamp
nothing is restored; and the entry map is restored in full — the restore
takes no clock and checks no ages — with each entry's date parsed by
`strptimeIso`, the model of `strptime` at the fixed format
`%Y-%m-%dT%H:%M:%S.%f`. -/
theorem C6_load_semantics (st : JState) (data : PersistedData) (now : ℚ)
    (s : String) (dt : PyDateTime)
    (hsave : data.lastSaveDate = some s)
    (hparse : strptimeIso s = some dt)
    (hdates : ∀ p ∈ data.funcCache, (strptimeIso p.2.date).isSome) :
    (load_variables_from_data st data now =
      some (if dt.toMicros + st.ttl.toTimedelta > now
            then { st with attrs :=
                data.variableCache.foldl (fun a p => assocSet a p.1 p.2) st.attrs }
            else st)) ∧
    (∀ (st2 : JState) (d2 : PersistedData), d2.lastSaveDate = Option.none →
        load_variables_from_data st2 d2 now = some st2) ∧
    (load_function_cache_from_data st data =
      ({ st with funcCache := restoredFuncCache st.funcCache data.funcCache }, true)) ∧
    (∀ (a : List (String × PyVal)) (k : String) (v : PyVal),
        assocGet (assocSet a k v) k = some v) := by
  refine ⟨?_, ?_, ?_, fun a k v => assocGet_assocSet_self a k v⟩
  · unfold load_variables_from_data
    rw [hsave]
    simp only [hparse]
    by_cases hc : dt.toMicros + st.ttl.toTimedelta > now <;> simp [hc]
  · intro st2 d2 h2
    unfold load_variables_from_data
    rw [h2]
  · unfold load_function_cache_from_data
    rw [loadFuncCacheAux_all_parse data.funcCache st.funcCache hdates]

/-- Owner state for the C6 witness: TTL 999 days, one constructor-set
attribute. -/
def c6St : JState :=
  ⟨Option.none, [], [("x", PyVal.int 1)], [], [], TTLVal.num 999⟩

/-- Persisted document for the C6 witness. -/
def c6Data : PersistedData :=
  ⟨[("f(){}", ⟨PyVal.int 7, "2020-01-01T00:00:00.5"⟩)],
   [("x", PyVal.int 5), ("y", PyVal.str "hi")],
   some "2024-01-02T03:04:05.123456"⟩

/-- Witness for C6, one microsecond after the recorded save instant. -/
theorem C6_load_semantics_witness :
    strptimeIso "2024-01-02T03:04:05.123456" =
      some (PyDateTime.mk 2024 1 2 3 4 5 123456) ∧
    (∀ p ∈ c6Data.funcCache, (strptimeIso p.2.date).isSome) ∧
    load_variables_from_data c6St c6Data 1704164645123457 =
      some (if (PyDateTime.mk 2024 1 2 3 4 5 123456).toMicros +
              c6St.ttl.toTimedelta > 1704164645123457
            then { c6St with attrs :=
                c6Data.variableCache.foldl (fun a p => assocSet a p.1 p.2) c6St.attrs }
            else c6St) ∧
    load_function_cache_from_data c6St c6Data =
      ({ c6St with funcCache := restoredFuncCache c6St.funcCache c6Data.funcCache },
       true) :=
  ⟨by decide, by decide,
   (C6_load_semantics c6St c6Data 1704164645123457 "2024-01-02T03:04:05.123456"
      (PyDateTime.mk 2024 1 2 3 4 5 123456) rfl (by decide) (by decide)).1,
   (C6_load_semantics c6St c6Data 1704164645123457 "2024-01-02T03:04:05.123456"
      (PyDateTime.mk 2024 1 2 3 4 5 123456) rfl (by decide) (by decide)).2.2.1⟩

/-- Owner state for the C7 counterexample: an underscore-prefixed (but not
`_json_cache`-prefixed) attribute alongside an ordinary one. -/
def c7St : JState :=
  ⟨Option.none, [], [("_secret", PyVal.int 1), ("a", PyVal.int 2)], [], [],
   TTLVal.num 999⟩

/-- C7 counterexample: the built snapshot's variable cache CONTAINS the
underscore-prefixed attribute `_secret` — the code filters only names
starting with `_json_cache`, not every underscore-prefixed name, so the
claim's "not underscore-prefixed" reading is false. -/
theorem C7_counterexample :
    (json_cache_data c7St 0).variableCache =
      [("_secret", PyVal.int 1), ("a", PyVal.int 2)] ∧
    startswith "_secret" "_" = true := by
  exact ⟨by decide, by decide⟩

/-- C7 amended: the snapshot's variable cache holds exactly the owner's
attributes that are not `property` objects of the owner's type, are not
prefixed with `_json_cache` (underscore-prefixed names otherwise remain),
are not in the excluded-variable list, and are JSON-serializable, in
sorted key order; the snapshot's entry map holds exactly the
JSON-serializable entries (an unencodable value is silently dropped, not
an error), also sorted. -/
theorem C7_snapshot_amended (st : JState) (now : ℚ) (p : String × PyVal)
    (q : String × CacheEntry PyVal) :
    (p ∈ (json_cache_data st now).variableCache ↔
      p ∈ st.attrs ∧ st.propNames.contains p.1 = false ∧
      startswith p.1 "_json_cache" = false ∧ st.excluded.contains p.1 = false ∧
      is_jsonable p.2 = true) ∧
    (q ∈ (json_cache_data st now).funcCache ↔
      q ∈ st.funcCache ∧ startswith q.1 "_json_cache_" = false ∧
      is_jsonable q.2.value = true) ∧
    ((json_cache_data st now).variableCache).Pairwise
      (fun a b => strLe a.1 b.1 = true) ∧
    ((json_cache_data st now).funcCache).Pairwise
      (fun a b => strLe a.1 b.1 = true) := by
  refine ⟨?_, ?_, sortByKey_sorted _, sortByKey_sorted _⟩
  · rw [show (json_cache_data st now).variableCache = cached_variables st from rfl]
    unfold cached_variables
    rw [mem_sortByKey, List.mem_filter]
    simp [Bool.and_eq_true, and_assoc]
  · rw [show (json_cache_data st now).funcCache =
        sortByKey (st.funcCache.filter (fun r =>
          !(startswith r.1 "_json_cache_") && is_jsonable r.2.value)) from rfl]
    rw [mem_sortByKey, List.mem_filter]
    simp [Bool.and_eq_true, and_assoc]

/-- C10: `_json_cache_save_inner` skips the write exactly when the freshly
built snapshot equals the recorded recent-save data; the built snapshot
embeds the build instant as its last-save date, so a save at any instant
other than the one recorded forces a write; saving never modifies the
state (in particular the recorded snapshot), while a successful load
records the snapshot built at load time. -/
theorem C10_save_skip (st : JState) (now : ℚ) (s : Snapshot)
    (hrec : st.recentSaveData = some s)
    (hne : s.lastSaveDate ≠ now) :
    ((json_cache_save_inner st now).written = false ↔
        st.recentSaveData = some (json_cache_data st now)) ∧
    (∀ (st2 : JState) (n2 : ℚ), (json_cache_data st2 n2).lastSaveDate = n2) ∧
    (json_cache_save_inner st now).written = true ∧
    (json_cache_save_inner st now).state = st ∧
    (∀ (d : PersistedData) (tl : ℚ) (st3 : JState),
        (json_cache_load_inner st3 (some d) tl).recentSaveData =
          some (json_cache_data (loadRestoredState st3 d tl) tl)) := by
  have hneq : st.recentSaveData ≠ some (json_cache_data st now) := by
    rw [hrec]
    intro h
    have h2 : s = json_cache_data st now := by cases h; rfl
    exact hne (by rw [h2]; rfl)
  refine ⟨?_, fun st2 n2 => rfl, ?_, ?_, fun d tl st3 => rfl⟩
  · unfold json_cache_save_inner
    split <;> simp_all
  · unfold json_cache_save_inner
    split
    · exact absurd (by assumption) hneq
    · rfl
  · unfold json_cache_save_inner
    split <;> rfl

/-- State for the C10 witness: a recorded snapshot whose last-save instant
is 0. -/
def c10St : JState :=
  ⟨some ⟨[], [], 0⟩, [], [], [], [], TTLVal.num 999⟩

/-- Witness for C10: saving at instant 1 (different from the recorded 0)
writes the file and leaves the recorded snapshot untouched. -/
theorem C10_save_skip_witness :
    c10St.recentSaveData = some ⟨[], [], 0⟩ ∧
    (json_cache_save_inner c10St 1).written = true ∧
    (json_cache_save_inner c10St 1).state = c10St :=
  ⟨rfl,
   (C10_save_skip c10St 1 ⟨[], [], 0⟩ rfl (by decide)).2.2.1,
   (C10_save_skip c10St 1 ⟨[], [], 0⟩ rfl (by decide)).2.2.2.1⟩

/-! ### Claim C8: bounded file names -/

theorem slugAux_length (l : List Char) (started pend : Bool) :
    (slugAux l started pend).length ≤ l.length + (if pend then 1 else 0) := by
  induction l generalizing started pend with
  | nil => simp [slugAux]
  | cons c rest ih =>
      have h1 := ih true false
      have h2 := ih started started
      simp only [slugAux]
      by_cases ha : (c.toLower).isAlphanum = true
      · simp only [ha, if_true]
        cases pend <;> simp_all <;> try omega
      · simp only [ha, if_false]
        cases started <;> cases pend <;> simp_all <;> omega

theorem slugify_length (s : String) : (slugify s).length ≤ s.length := by
  have := slugAux_length s.data false false
  simpa using this

theorem hexBytes_length (bytes : List Nat) :
    (hexBytes bytes).length = 2 * bytes.length := by
  show ((bytes.map (fun b => [hexDigit (b / 16 % 16), hexDigit (b % 16)])).flatten).length
      = 2 * bytes.length
  induction bytes with
  | nil => rfl
  | cons b rest ih =>
      simp only [List.map_cons, List.flatten_cons, List.length_append,
        List.length_cons, List.length_nil, List.length_cons, ih]
      omega

theorem sha256Bytes_length (msg : List Nat) : (sha256Bytes msg).length = 32 := by
  simp [sha256Bytes, beBytes4]

theorem sha256Hexdigest_length (s : String) : (sha256Hexdigest s).length = 64 := by
  show (hexBytes (sha256Bytes (utf8Encode s))).length = 64
  rw [hexBytes_length, sha256Bytes_length]

/-- A 200-character identity, all letter a. -/
def c8IdA : String := ⟨List.replicate 200 (Char.ofNat 97)⟩

/-- A distinct 200-character identity sharing `c8IdA`'s first 140
characters. -/
def c8IdB : String :=
  ⟨List.replicate 140 (Char.ofNat 97) ++ List.replicate 60 (Char.ofNat 98)⟩

set_option maxRecDepth 100000 in
/-- C8: ids shorter than 180 characters name their file by their slug
directly; ids of 180 characters or more are truncated to 140 characters
and suffixed with the SHA-256 hex digest of the full id before
slugification; a 200-character identity yields a file name under 260
characters; and the two concrete 200-character identities sharing their
first 140 characters map to distinct file names. -/
theorem C8_long_id_filename (dataId : String) :
    (dataId.length < 180 →
      json_cache_filename dataId = slugify dataId ++ ".json") ∧
    (180 ≤ dataId.length →
      json_cache_filename dataId =
        slugify (dataId.take 140 ++ "-" ++ sha256Hexdigest dataId) ++ ".json") ∧
    (dataId.length = 200 → (json_cache_filename dataId).length < 260) ∧
    (c8IdA ≠ c8IdB ∧ c8IdA.take 140 = c8IdB.take 140 ∧
      json_cache_filename c8IdA ≠ json_cache_filename c8IdB) := by
  refine ⟨?_, ?_, ?_, ?_, ?_, ?_⟩
  · intro h
    unfold json_cache_filename
    rw [if_pos h]
  · intro h
    unfold json_cache_filename
    rw [if_neg (not_lt.mpr h)]
  · intro h200
    have h180 : ¬ dataId.length < 180 := by omega
    unfold json_cache_filename
    rw [if_neg h180, String.length_append]
    have ht : (dataId.take 140).length = 140 := by
      rw [String.take_eq]
      show (dataId.data.take 140).length = 140
      rw [List.length_take]
      have hd : dataId.data.length = 200 := h200
      omega
    have hs : (dataId.take 140 ++ "-" ++ sha256Hexdigest dataId).length = 205 := by
      rw [String.length_append, String.length_append, ht,
        sha256Hexdigest_length]
      rfl
    have := slugify_length (dataId.take 140 ++ "-" ++ sha256Hexdigest dataId)
    rw [hs] at this
    have hj : (".json" : String).length = 5 := rfl
    omega
  · decide
  · decide
  · decide

set_option maxRecDepth 100000 in
/-- Witness for C8 at the concrete 200-character identity. -/
theorem C8_long_id_filename_witness :
    c8IdA.length = 200 ∧ (json_cache_filename c8IdA).length < 260 :=
  ⟨by decide, (C8_long_id_filename c8IdA).2.2.1 (by decide)⟩

/-! ### Claim C9: interleaving semantics of the asynchronous wrapper

In asyncio, one invocation of `async_wrapper` runs as two atomic
segments: everything up to and including entering
`store_in_class_cache_async` and starting the underlying coroutine
(fingerprint computation, cache lookup, hit decision), and — after the
underlying `await` completes — the entry write, the persistence hook, the
append to `run_function_signatures` and the return.  All of the call's
data (`cached_function`, its fingerprint, the entry under construction)
is local to the call frame.  The model therefore gives each in-flight
call a task with its own fingerprint and its own result, and interleaves
check and store segments of different tasks arbitrarily; `T` restricts
the instants at which segments may run. -/

/-- The progress of one in-flight asynchronous call: not yet checked,
underlying operation running, or finished with the returned value and
whether the underlying operation was invoked. -/
inductive TaskPhase (V : Type) where
  | ready
  | running
  | done (returned : V) (invoked : Bool)
deriving DecidableEq

/-- Whether a phase is finished. -/
def isDone {V : Type} : TaskPhase V → Bool
  | TaskPhase.done _ _ => true
  | _ => false

/-- One in-flight call: its fingerprint (computed from its own arguments,
local to the call frame) and the value its own run of the underlying
operation returns. -/
structure ConcTask (V : Type) where
  sig : String
  value : V
  phase : TaskPhase V
deriving DecidableEq

/-- The shared state: the in-flight calls, the owner, and the wrapper. -/
structure ConcState (V : Type) where
  tasks : List (ConcTask V)
  owner : Owner V
  wrapper : Cached
deriving DecidableEq

/-- The owner after `store_in_class_cache_async` succeeds (the underlying
operation returned normally). -/
def storedOwner (o : Owner V) (sig : String) (v : V) (now : ℚ) : Owner V :=
  match store_in_class_cache (E := Empty) o sig (Except.ok v) now with
  | Except.ok p => p.2
  | Except.error e => e.elim

/-- One interleaving step of the asynchronous wrapper: a hit check, a miss
check (the underlying operation starts), or a store segment (the
underlying operation finished; its entry is written, the persistence hook
runs, and the fingerprint joins the wrapper's recently-run list). -/
inductive ConcStep {V : Type} (T : ℚ → Prop) : ConcState V → ConcState V → Prop where
  | hit (s : ConcState V) (i : ℕ) (now : ℚ) (t : ConcTask V) (entry : CacheEntry V)
      (hT : T now)
      (ht : s.tasks[i]? = some t)
      (hph : t.phase = TaskPhase.ready)
      (hget : retrieve_from_class_cache s.owner t.sig = some entry)
      (hhit : hitTest s.wrapper s.owner t.sig now = true) :
      ConcStep T s
        { tasks := s.tasks.set i { t with phase := TaskPhase.done entry.value false },
          owner := setStatus s.owner t.sig "hit",
          wrapper := s.wrapper }
  | miss (s : ConcState V) (i : ℕ) (now : ℚ) (t : ConcTask V)
      (hT : T now)
      (ht : s.tasks[i]? = some t)
      (hph : t.phase = TaskPhase.ready)
      (hhit : hitTest s.wrapper s.owner t.sig now = false) :
      ConcStep T s
        { tasks := s.tasks.set i { t with phase := TaskPhase.running },
          owner := s.owner,
          wrapper := s.wrapper }
  | store (s : ConcState V) (i : ℕ) (now : ℚ) (t : ConcTask V)
      (hT : T now)
      (ht : s.tasks[i]? = some t)
      (hph : t.phase = TaskPhase.running) :
      ConcStep T s
        { tasks := s.tasks.set i { t with phase := TaskPhase.done t.value true },
          owner := setStatus (storedOwner s.owner t.sig t.value now) t.sig "miss",
          wrapper := { s.wrapper with run_function_signatures :=
              s.wrapper.run_function_signatures ++ [t.sig] } }

/-- Every task has finished. -/
def allDone {V : Type} (s : ConcState V) : Bool :=
  s.tasks.all (fun t => isDone t.phase)

theorem mem_of_getElemOpt {l : List α} {i : ℕ} {a : α} (h : l[i]? = some a) :
    a ∈ l := by
  rcases List.getElem?_eq_some_iff.mp h with ⟨hl, rfl⟩
  exact List.getElem_mem hl

theorem getElemOpt_set_same {l : List α} {i : ℕ} {a : α} (b : α)
    (h : l[i]? = some a) : (l.set i b)[i]? = some b := by
  rcases List.getElem?_eq_some_iff.mp h with ⟨hl, _⟩
  exact List.getElem?_set_eq_of_lt b hl

theorem assocSet_append_of_none (m : List (String × α)) (k : String) (v : α)
    (h : assocGet m k = Option.none) : assocSet m k v = m ++ [(k, v)] := by
  induction m with
  | nil => rfl
  | cons p rest ih =>
      by_cases hp : p.1 = k
      · simp [assocGet, hp] at h
      · simp only [assocGet, hp, if_false] at h
        simp [assocSet, hp, ih h]

theorem filter_set_perm_flip (l : List α) (i : ℕ) (a b : α) (p : α → Bool)
    (h : l[i]? = some a) (hpa : p a = false) (hpb : p b = true) :
    ((l.set i b).filter p).Perm (b :: l.filter p) := by
  induction l generalizing i with
  | nil => simp at h
  | cons x rest ih =>
      cases i with
      | zero =>
          obtain rfl : x = a := by simpa using h
          simp [List.filter, hpa, hpb]
      | succ j =>
          have h2 : rest[j]? = some a := by simpa using h
          cases hx : p x
          · simpa [List.filter, hx] using ih j h2
          · simp only [List.set, List.filter_cons, hx, if_true]
            exact (List.Perm.cons x (ih j h2)).trans (List.Perm.swap b x _)

theorem filter_set_eq_flat (l : List α) (i : ℕ) (a b : α) (p : α → Bool)
    (h : l[i]? = some a) (hpa : p a = false) (hpb : p b = false) :
    (l.set i b).filter p = l.filter p := by
  induction l generalizing i with
  | nil => simp at h
  | cons x rest ih =>
      cases i with
      | zero =>
          obtain rfl : x = a := by simpa using h
          simp [List.filter, hpa, hpb]
      | succ j =>
          have h2 : rest[j]? = some a := by simpa using h
          simp [List.filter_cons, ih j h2]

theorem nodup_map_sig_ne {l : List α} {f : α → β} (h : (l.map f).Nodup)
    {i j : ℕ} (hij : i ≠ j) {x y : α} (hx : l[i]? = some x)
    (hy : l[j]? = some y) : f x ≠ f y := by
  rcases List.getElem?_eq_some_iff.mp hx with ⟨hi, rfl⟩
  rcases List.getElem?_eq_some_iff.mp hy with ⟨hj, rfl⟩
  intro heq
  have hi2 : i < (l.map f).length := by simpa using hi
  have hj2 : j < (l.map f).length := by simpa using hj
  have h1 : (l.map f)[i] = f l[i] := by simp
  have h2 : (l.map f)[j] = f l[j] := by simp
  have h3 : (l.map f)[i] = (l.map f)[j] := by rw [h1, h2, heq]
  exact hij (List.Nodup.getElem_inj_iff h |>.mp h3)

/-- Batch-1 invariant: starting from ready tasks with pairwise-distinct
fingerprints over an owner holding none of them, every reachable state
keeps each task's fingerprint and value intact, finished tasks ran their
own operation and hold their own entry, unfinished tasks have no entry
yet, and the entry-map keys are exactly the finished fingerprints. -/
structure Conc1Inv {V : Type} (s0 s : ConcState V) : Prop where
  len : s.tasks.length = s0.tasks.length
  keep : ∀ (i : ℕ) (t : ConcTask V), s.tasks[i]? = some t →
      ∃ t0, s0.tasks[i]? = some t0 ∧ t.sig = t0.sig ∧ t.value = t0.value
  phase_ok : ∀ (i : ℕ) (t : ConcTask V), s.tasks[i]? = some t →
      ∀ (r : V) (b : Bool), t.phase = TaskPhase.done r b → r = t.value ∧ b = true
  undone_absent : ∀ (i : ℕ) (t : ConcTask V), s.tasks[i]? = some t →
      isDone t.phase = false →
      assocGet s.owner.funcCache t.sig = Option.none
  done_present : ∀ (i : ℕ) (t : ConcTask V), s.tasks[i]? = some t →
      isDone t.phase = true →
      ∃ τ, assocGet s.owner.funcCache t.sig = some ⟨t.value, τ⟩
  keys_perm : (s.owner.funcCache.map Prod.fst).Perm
      ((s.tasks.filter (fun t => isDone t.phase)).map ConcTask.sig)

@[simp]
theorem storedOwner_funcCache (o : Owner V) (sig : String) (v : V) (now : ℚ) :
    (storedOwner o sig v now).funcCache = assocSet o.funcCache sig ⟨v, now⟩ := rfl

theorem conc1Inv_init {V : Type} (s0 : ConcState V)
    (hready : ∀ t ∈ s0.tasks, t.phase = TaskPhase.ready)
    (hempty : s0.owner.funcCache = []) : Conc1Inv s0 s0 := by
  constructor
  · rfl
  · exact fun i t ht => ⟨t, ht, rfl, rfl⟩
  · intro i t ht r b hphase
    rw [hready t (mem_of_getElemOpt ht)] at hphase
    cases hphase
  · intro i t ht _
    rw [hempty]
    rfl
  · intro i t ht hdone
    rw [hready t (mem_of_getElemOpt ht)] at hdone
    cases hdone
  · rw [hempty, List.filter_eq_nil_iff.mpr]
    · exact List.Perm.refl _
    · intro t htm
      rw [hready t htm]
      simp [isDone]

theorem conc1Inv_step {V : Type} {T : ℚ → Prop} {s0 s s2 : ConcState V}
    (hnd : (s0.tasks.map ConcTask.sig).Nodup)
    (inv : Conc1Inv s0 s) (hstep : ConcStep T s s2) : Conc1Inv s0 s2 := by
  cases hstep with
  | hit i now t entry hT ht hph hget hhit =>
      have habs := inv.undone_absent i t ht (by rw [hph]; rfl)
      rw [show retrieve_from_class_cache s.owner t.sig
          = assocGet s.owner.funcCache t.sig from rfl, habs] at hget
      cases hget
  | miss i now t hT ht hph hhit =>
      constructor
      · rw [List.length_set]
        exact inv.len
      · intro j u hu
        by_cases hij : i = j
        · subst hij
          rw [getElemOpt_set_same _ ht] at hu
          cases hu
          exact inv.keep i t ht
        · rw [List.getElem?_set_ne hij] at hu
          exact inv.keep j u hu
      · intro j u hu r b hphase
        by_cases hij : i = j
        · subst hij
          rw [getElemOpt_set_same _ ht] at hu
          cases hu
          cases hphase
        · rw [List.getElem?_set_ne hij] at hu
          exact inv.phase_ok j u hu r b hphase
      · intro j u hu hnotdone
        by_cases hij : i = j
        · subst hij
          rw [getElemOpt_set_same _ ht] at hu
          cases hu
          exact inv.undone_absent i t ht (by rw [hph]; rfl)
        · rw [List.getElem?_set_ne hij] at hu
          exact inv.undone_absent j u hu hnotdone
      · intro j u hu hdone
        by_cases hij : i = j
        · subst hij
          rw [getElemOpt_set_same _ ht] at hu
          cases hu
          cases hdone
        · rw [List.getElem?_set_ne hij] at hu
          exact inv.done_present j u hu hdone
      · rw [filter_set_eq_flat s.tasks i t _ _ ht
          (by show isDone t.phase = false; rw [hph]; rfl) rfl]
        exact inv.keys_perm
  | store i now t hT ht hph =>
      have habs := inv.undone_absent i t ht (by rw [hph]; rfl)
      have hsig_ne : ∀ (j : ℕ) (u : ConcTask V), j ≠ i → s.tasks[j]? = some u →
          t.sig ≠ u.sig := by
        intro j u hji hu
        obtain ⟨t0, ht0, hts, _⟩ := inv.keep i t ht
        obtain ⟨u0, hu0, hus, _⟩ := inv.keep j u hu
        rw [hts, hus]
        exact nodup_map_sig_ne hnd (fun h => hji h.symm) ht0 hu0
      constructor
      · rw [List.length_set]
        exact inv.len
      · intro j u hu
        by_cases hij : i = j
        · subst hij
          rw [getElemOpt_set_same _ ht] at hu
          cases hu
          exact inv.keep i t ht
        · rw [List.getElem?_set_ne hij] at hu
          exact inv.keep j u hu
      · intro j u hu r b hphase
        by_cases hij : i = j
        · subst hij
          rw [getElemOpt_set_same _ ht] at hu
          cases hu
          cases hphase
          exact ⟨rfl, rfl⟩
        · rw [List.getElem?_set_ne hij] at hu
          exact inv.phase_ok j u hu r b hphase
      · intro j u hu hnotdone
        by_cases hij : i = j
        · subst hij
          rw [getElemOpt_set_same _ ht] at hu
          cases hu
          cases hnotdone
        · rw [List.getElem?_set_ne hij] at hu
          have := inv.undone_absent j u hu hnotdone
          simp only [setStatus_funcCache, storedOwner_funcCache]
          rw [assocGet_assocSet_other _ _ _ _ (hsig_ne j u (fun h => hij h.symm) hu)]
          exact this
      · intro j u hu hdone
        by_cases hij : i = j
        · subst hij
          rw [getElemOpt_set_same _ ht] at hu
          cases hu
          refine ⟨now, ?_⟩
          simp only [setStatus_funcCache, storedOwner_funcCache]
          exact assocGet_assocSet_self _ _ _
        · rw [List.getElem?_set_ne hij] at hu
          obtain ⟨τ, hτ⟩ := inv.done_present j u hu hdone
          refine ⟨τ, ?_⟩
          simp only [setStatus_funcCache, storedOwner_funcCache]
          rw [assocGet_assocSet_other _ _ _ _ (hsig_ne j u (fun h => hij h.symm) hu)]
          exact hτ
      · simp only [setStatus_funcCache, storedOwner_funcCache]
        rw [assocSet_append_of_none _ _ _ habs, List.map_append]
        have hflip := filter_set_perm_flip s.tasks i t
          { t with phase := TaskPhase.done t.value true }
          (fun u => isDone u.phase) ht
          (by show isDone t.phase = false; rw [hph]; rfl) rfl
        refine List.Perm.trans (List.perm_append_singleton _ _) ?_
        refine List.Perm.trans (List.Perm.cons t.sig inv.keys_perm) ?_
        exact (hflip.map ConcTask.sig).symm

theorem conc1_sound {V : Type} {T : ℚ → Prop} {s0 s1 : ConcState V}
    (hnd : (s0.tasks.map ConcTask.sig).Nodup)
    (hready : ∀ t ∈ s0.tasks, t.phase = TaskPhase.ready)
    (hempty : s0.owner.funcCache = [])
    (hreach : Relation.ReflTransGen (ConcStep T) s0 s1) : Conc1Inv s0 s1 := by
  induction hreach with
  | refl => exact conc1Inv_init s0 hready hempty
  | tail hsteps hstep ih => exact conc1Inv_step hnd ih hstep

/-- `hitTest` only reads the owner's entry map and TTL. -/
theorem hitTest_congr {V : Type} (c : Cached) (o o2 : Owner V) (sig : String)
    (now : ℚ) (hfc : o2.funcCache = o.funcCache)
    (httl : o2.jsonCacheTtl = o.jsonCacheTtl) :
    hitTest c o2 sig now = hitTest c o sig now := by
  unfold hitTest retrieve_from_class_cache Cached.max_delta
  rw [hfc, httl]

/-- Batch-2 invariant: when every task's fingerprint is served fresh from
the store at every permitted instant, the entry map and the wrapper never
change, and tasks only move from ready to served-from-store (underlying
operation never invoked). -/
structure Conc2Inv {V : Type} (s0 s : ConcState V) : Prop where
  owner_fc : s.owner.funcCache = s0.owner.funcCache
  owner_ttl : s.owner.jsonCacheTtl = s0.owner.jsonCacheTtl
  wrap : s.wrapper = s0.wrapper
  len : s.tasks.length = s0.tasks.length
  keep : ∀ (i : ℕ) (t : ConcTask V), s.tasks[i]? = some t →
      ∃ t0, s0.tasks[i]? = some t0 ∧ t.sig = t0.sig ∧ t.value = t0.value
  phases : ∀ (i : ℕ) (t : ConcTask V), s.tasks[i]? = some t →
      t.phase = TaskPhase.ready ∨
      ∃ entry, retrieve_from_class_cache s0.owner t.sig = some entry ∧
        t.phase = TaskPhase.done entry.value false

theorem conc2Inv_init {V : Type} (s0 : ConcState V)
    (hready : ∀ t ∈ s0.tasks, t.phase = TaskPhase.ready) : Conc2Inv s0 s0 :=
  ⟨rfl, rfl, rfl, rfl, fun i t ht => ⟨t, ht, rfl, rfl⟩,
   fun i t ht => Or.inl (hready t (mem_of_getElemOpt ht))⟩

theorem conc2Inv_step {V : Type} {T : ℚ → Prop} {s0 s s2 : ConcState V}
    (hfresh : ∀ t0 ∈ s0.tasks, ∀ now, T now →
      hitTest s0.wrapper s0.owner t0.sig now = true)
    (inv : Conc2Inv s0 s) (hstep : ConcStep T s s2) : Conc2Inv s0 s2 := by
  cases hstep with
  | hit i now t entry hT ht hph hget hhit =>
      constructor
      · rw [setStatus_funcCache]
        exact inv.owner_fc
      · rw [setStatus_jsonCacheTtl]
        exact inv.owner_ttl
      · exact inv.wrap
      · rw [List.length_set]
        exact inv.len
      · intro j u hu
        by_cases hij : i = j
        · subst hij
          rw [getElemOpt_set_same _ ht] at hu
          cases hu
          exact inv.keep i t ht
        · rw [List.getElem?_set_ne hij] at hu
          exact inv.keep j u hu
      · intro j u hu
        by_cases hij : i = j
        · subst hij
          rw [getElemOpt_set_same _ ht] at hu
          cases hu
          refine Or.inr ⟨entry, ?_, rfl⟩
          rw [show retrieve_from_class_cache s0.owner t.sig
              = assocGet s0.owner.funcCache t.sig from rfl, ← inv.owner_fc]
          exact hget
        · rw [List.getElem?_set_ne hij] at hu
          exact inv.phases j u hu
  | miss i now t hT ht hph hhit =>
      exfalso
      rw [inv.wrap, hitTest_congr _ _ _ _ _ inv.owner_fc inv.owner_ttl] at hhit
      obtain ⟨t0, ht0, hts, _⟩ := inv.keep i t ht
      rw [hts] at hhit
      rw [hfresh t0 (mem_of_getElemOpt ht0) now hT] at hhit
      cases hhit
  | store i now t hT ht hph =>
      exfalso
      rcases inv.phases i t ht with h | ⟨entry, _, h⟩ <;> rw [hph] at h <;> cases h

theorem conc2_sound {V : Type} {T : ℚ → Prop} {s0 s1 : ConcState V}
    (hready : ∀ t ∈ s0.tasks, t.phase = TaskPhase.ready)
    (hfresh : ∀ t0 ∈ s0.tasks, ∀ now, T now →
      hitTest s0.wrapper s0.owner t0.sig now = true)
    (hreach : Relation.ReflTransGen (ConcStep T) s0 s1) : Conc2Inv s0 s1 := by
  induction hreach with
  | refl => exact conc2Inv_init s0 hready
  | tail hsteps hstep ih => exact conc2Inv_step hfresh ih hstep

/-- C9: (first half) for N concurrently interleaved calls of one wrapped
asynchronous operation with pairwise-distinct fingerprints against one
owner whose entry map starts empty, any complete interleaving invokes the
underlying operation exactly once per call, each call returns its own
result, and the final entry map holds exactly N entries, each keyed by
its own call's fingerprint with that call's result; (second half)
re-issuing calls whose fingerprints are all served fresh from the store
at every permitted instant leaves the entry map and wrapper untouched and
invokes the underlying operation zero times, every call returning the
stored value for its own fingerprint. -/
theorem C9_concurrent_calls (V : Type) :
    (∀ (T : ℚ → Prop) (s0 s1 : ConcState V),
      (s0.tasks.map ConcTask.sig).Nodup →
      (∀ t ∈ s0.tasks, t.phase = TaskPhase.ready) →
      s0.owner.funcCache = [] →
      Relation.ReflTransGen (ConcStep T) s0 s1 →
      allDone s1 = true →
      ((∀ (i : ℕ) (t : ConcTask V), s1.tasks[i]? = some t →
          ∃ t0, s0.tasks[i]? = some t0 ∧ t.sig = t0.sig ∧
            t.phase = TaskPhase.done t0.value true ∧
            ∃ τ, assocGet s1.owner.funcCache t0.sig = some ⟨t0.value, τ⟩) ∧
        s1.owner.funcCache.length = s0.tasks.length)) ∧
    (∀ (T : ℚ → Prop) (s0 s1 : ConcState V),
      (∀ t ∈ s0.tasks, t.phase = TaskPhase.ready) →
      (∀ t0 ∈ s0.tasks, ∀ now, T now →
        hitTest s0.wrapper s0.owner t0.sig now = true) →
      Relation.ReflTransGen (ConcStep T) s0 s1 →
      allDone s1 = true →
      (s1.owner.funcCache = s0.owner.funcCache ∧ s1.wrapper = s0.wrapper ∧
        ∀ (i : ℕ) (t : ConcTask V), s1.tasks[i]? = some t →
          ∃ t0 entry, s0.tasks[i]? = some t0 ∧ t.sig = t0.sig ∧
            retrieve_from_class_cache s0.owner t0.sig = some entry ∧
            t.phase = TaskPhase.done entry.value false)) := by
  constructor
  · intro T s0 s1 hnd hready hempty hreach hdone
    have inv := conc1_sound hnd hready hempty hreach
    have hall := List.all_eq_true.mp hdone
    constructor
    · intro i t ht
      obtain ⟨t0, ht0, hts, htv⟩ := inv.keep i t ht
      have hd : isDone t.phase = true := hall t (mem_of_getElemOpt ht)
      obtain ⟨r, b, hphase⟩ : ∃ r b, t.phase = TaskPhase.done r b := by
        cases hp : t.phase with
        | done r b => exact ⟨r, b, rfl⟩
        | ready => rw [hp] at hd; cases hd
        | running => rw [hp] at hd; cases hd
      obtain ⟨hr, hb⟩ := inv.phase_ok i t ht r b hphase
      obtain ⟨τ, hτ⟩ := inv.done_present i t ht hd
      refine ⟨t0, ht0, hts, ?_, τ, ?_⟩
      · rw [hphase, hr, hb, htv]
      · rw [← hts, ← htv]
        exact hτ
    · have h1 := inv.keys_perm.length_eq
      rw [List.length_map, List.length_map,
        List.filter_eq_self.mpr (fun t htm => hall t htm)] at h1
      rw [h1]
      exact inv.len
  · intro T s0 s1 hready hfresh hreach hdone
    have inv := conc2_sound hready hfresh hreach
    have hall := List.all_eq_true.mp hdone
    refine ⟨inv.owner_fc, inv.wrap, ?_⟩
    intro i t ht
    obtain ⟨t0, ht0, hts, _⟩ := inv.keep i t ht
    rcases inv.phases i t ht with h | ⟨entry, hretr, hphase⟩
    · have hd := hall t (mem_of_getElemOpt ht)
      rw [h] at hd
      cases hd
    · exact ⟨t0, entry, ht0, hts, by rw [← hts]; exact hretr, hphase⟩

/-- Owner for the C9 witness: empty entry map, no hooks. -/
def c9Owner0 : Owner ℤ := ⟨TTLVal.num 999, [], false, 0, false, [], Option.none⟩

/-- Wrapper for the C9 witness. -/
def c9Wrapper0 : Cached := ⟨false, Option.none, []⟩

/-- First concurrent call: `f(1)`, returning 11. -/
def c9T1 : ConcTask ℤ := ⟨"f(1,){}", 11, TaskPhase.ready⟩

/-- Second concurrent call: `f(2)`, returning 22. -/
def c9T2 : ConcTask ℤ := ⟨"f(2,){}", 22, TaskPhase.ready⟩

/-- Initial state of the C9 witness run. -/
def c9S0 : ConcState ℤ := ⟨[c9T1, c9T2], c9Owner0, c9Wrapper0⟩

/-- After both calls checked the cache (both miss, interleaved before
either stores). -/
def c9SA : ConcState ℤ :=
  ⟨[⟨"f(1,){}", 11, TaskPhase.running⟩, c9T2], c9Owner0, c9Wrapper0⟩

/-- Both calls running. -/
def c9SB : ConcState ℤ :=
  ⟨[⟨"f(1,){}", 11, TaskPhase.running⟩, ⟨"f(2,){}", 22, TaskPhase.running⟩],
   c9Owner0, c9Wrapper0⟩

/-- First call stored its entry at instant 1. -/
def c9SC : ConcState ℤ :=
  ⟨[⟨"f(1,){}", 11, TaskPhase.done 11 true⟩, ⟨"f(2,){}", 22, TaskPhase.running⟩],
   ⟨TTLVal.num 999, [("f(1,){}", ⟨11, 1⟩)], false, 0, false, [], Option.none⟩,
   ⟨false, Option.none, ["f(1,){}"]⟩⟩

/-- Final state: both calls done, two correctly-keyed entries. -/
def c9End : ConcState ℤ :=
  ⟨[⟨"f(1,){}", 11, TaskPhase.done 11 true⟩, ⟨"f(2,){}", 22, TaskPhase.done 22 true⟩],
   ⟨TTLVal.num 999, [("f(1,){}", ⟨11, 1⟩), ("f(2,){}", ⟨22, 2⟩)], false, 0, false, [],
    Option.none⟩,
   ⟨false, Option.none, ["f(1,){}", "f(2,){}"]⟩⟩

/-- A complete interleaved execution of the two calls: both check (miss)
before either stores. -/
theorem c9Trace :
    Relation.ReflTransGen (ConcStep (V := ℤ) (fun _ => True)) c9S0 c9End := by
  have h1 : ConcStep (V := ℤ) (fun _ => True) c9S0 c9SA :=
    ConcStep.miss c9S0 0 0 c9T1 trivial rfl rfl rfl
  have h2 : ConcStep (V := ℤ) (fun _ => True) c9SA c9SB :=
    ConcStep.miss c9SA 1 0 c9T2 trivial rfl rfl rfl
  have h3 : ConcStep (V := ℤ) (fun _ => True) c9SB c9SC :=
    ConcStep.store c9SB 0 1 ⟨"f(1,){}", 11, TaskPhase.running⟩ trivial rfl rfl
  have h4 : ConcStep (V := ℤ) (fun _ => True) c9SC c9End :=
    ConcStep.store c9SC 1 2 ⟨"f(2,){}", 22, TaskPhase.running⟩ trivial rfl rfl
  exact Relation.ReflTransGen.head h1 (Relation.ReflTransGen.head h2
    (Relation.ReflTransGen.head h3 (Relation.ReflTransGen.head h4
      Relation.ReflTransGen.refl)))

/-- Witness for C9 on the concrete two-call interleaving. -/
theorem C9_concurrent_calls_witness :
    (c9S0.tasks.map ConcTask.sig).Nodup ∧
    allDone c9End = true ∧
    c9End.owner.funcCache.length = c9S0.tasks.length :=
  ⟨by decide, rfl,
   ((C9_concurrent_calls ℤ).1 (fun _ => True) c9S0 c9End (by decide) (by decide)
      rfl c9Trace rfl).2⟩

end Cacherator
